import Mathlib

/-!
Shallow embedding of the chip-aight CHIP-8 interpreter core
(`src/components/cpu.rs` and `src/components/memory.rs`).

Modelling conventions:
* Rust machine integers are modelled as `Nat` with explicit reductions where
  the Rust code wraps: `u8` arithmetic reduces `% 256`, `u16` arithmetic
  reduces `% 65536` (release-mode wrapping semantics).
* The 8192-byte backing array `Memory.space` is modelled as a map
  `Nat → Nat`; in-bounds behaviour agrees with the Rust array.  The handlers
  that index the array directly without a bounds check (`draw_sprite`,
  `get_bcd`, `store_regs`, `load_regs`) panic in Rust when an index reaches
  8192; they are modelled as `Option`-valued, returning `none` exactly when
  some touched index is out of range.  A panic discards all state, so
  checking the instruction's touched-index set up front is observationally
  the same as panicking at the first bad access.
* Fallible Rust code returning `Result` is modelled with `Except`; places
  where the Rust code calls `.expect` / indexes past a bound (a crash, not a
  returned error) are modelled by the distinguished `Outcome.panicked` tag.
* The thread-local random generator is modelled as an oracle byte `rng`
  carried in the state; no claim depends on it.
-/

/-- Pointwise update of a `Nat`-indexed map, used to model array writes. -/
def updF (f : Nat → Nat) (k v : Nat) : Nat → Nat :=
  fun j => if j = k then v else f j

/-- The 64×32 framebuffer `[[bool; 32]; 64]`, indexed column-major. -/
def Screen : Type := Nat → Nat → Bool

/-- Write one pixel of the framebuffer (`state[cx][cy] = b`). -/
def setPix (s : Screen) (cx cy : Nat) (b : Bool) : Screen :=
  fun u w => if u = cx ∧ w = cy then b else s u w

/-- `Memory` from `memory.rs`: the byte array `space: [u8; 8192]`. -/
structure Memory where
  space : Nat → Nat

/-- `Memory::write`: word write at `pos`, rejected outside 0x200..=0xFFF.
`pos_u = pos * 2` is computed in `u16` (hence `% 65536`); the head byte is
`data >> 8` cast to `u8` and the tail byte `data & 0xFF`. -/
def Memory.write (m : Memory) (pos data : Nat) : Except String Memory :=
  let pos_u := (pos * 2) % 65536
  if 0x200 ≤ pos ∧ pos ≤ 0xFFF then
    Except.ok { space := updF (updF m.space pos_u ((data >>> 8) % 256)) (pos_u + 1) (data % 256) }
  else
    Except.error "Out of bounds exception"

/-- `Memory::unbound_write`: like `write` but without the lower bound. -/
def Memory.unbound_write (m : Memory) (pos data : Nat) : Except String Memory :=
  let pos_u := (pos * 2) % 65536
  if pos ≤ 0xFFF then
    Except.ok { space := updF (updF m.space pos_u ((data >>> 8) % 256)) (pos_u + 1) (data % 256) }
  else
    Except.error "Out of bounds exception"

/-- `Memory::read`: word read, `(space[2*pos] << 8) | space[2*pos+1]`. -/
def Memory.read (m : Memory) (pos : Nat) : Except String Nat :=
  let pos_u := (pos * 2) % 65536
  if pos ≤ 0xFFF then
    Except.ok ((m.space pos_u <<< 8) ||| m.space (pos_u + 1))
  else
    Except.error "Out of bounds exception"

/-- The `Cpu` struct from `cpu.rs`.  `v` is the register file `[u8; 16]`,
`stack` the `Vec<u16>` with the head as top, `is_key_pressed_temp` the
latched key snapshot used by Fx0A. -/
structure Cpu where
  v : Nat → Nat
  stack : List Nat
  program_counter : Nat
  i : Nat
  dt : Nat
  st : Nat
  rng : Nat
  is_key_pressed_temp : Option (Nat → Bool)
  store_load_quirk : Bool
  shift_y : Bool
  drawn : Bool

/-- 00E0 - `cls`: clear the framebuffer. -/
def cls (_state : Screen) : Screen :=
  fun _ _ => false

/-- 00EE - `ret_sub`: pop the stack into pc.  `none` models the
`expect("00EE: No addresses to pop")` panic on an empty stack. -/
def Cpu.ret_sub (cpu : Cpu) : Option Cpu :=
  match cpu.stack with
  | [] => none
  | popped_addr :: rest => some { cpu with program_counter := popped_addr, stack := rest }

/-- 1nnn - `jump`: `program_counter = addr - 2` (u16 wrapping). -/
def Cpu.jump (cpu : Cpu) (addr : Nat) : Cpu :=
  { cpu with program_counter := (addr + 65534) % 65536 }

/-- 2nnn - `call_sub`: push pc, then `program_counter = addr - 2` (u16 wrapping). -/
def Cpu.call_sub (cpu : Cpu) (addr : Nat) : Cpu :=
  { cpu with stack := cpu.program_counter :: cpu.stack,
             program_counter := (addr + 65534) % 65536 }

/-- 3xnn - skip if `Vx == nn`. -/
def Cpu.if_reg_equals_nn (cpu : Cpu) (x nn : Nat) : Cpu :=
  if cpu.v x = nn then { cpu with program_counter := (cpu.program_counter + 2) % 65536 } else cpu

/-- 4xnn - skip if `Vx != nn`. -/
def Cpu.if_not_reg_equals_nn (cpu : Cpu) (x nn : Nat) : Cpu :=
  if cpu.v x ≠ nn then { cpu with program_counter := (cpu.program_counter + 2) % 65536 } else cpu

/-- 5xy0 - skip if `Vx == Vy`. -/
def Cpu.if_reg_equals_reg (cpu : Cpu) (x y : Nat) : Cpu :=
  if cpu.v x = cpu.v y then { cpu with program_counter := (cpu.program_counter + 2) % 65536 } else cpu

/-- 6xnn - `Vx = nn`. -/
def Cpu.reg_store_nn (cpu : Cpu) (x nn : Nat) : Cpu :=
  { cpu with v := updF cpu.v x nn }

/-- 7xnn - `Vx = Vx.wrapping_add(nn)`; no flag. -/
def Cpu.reg_add_nn (cpu : Cpu) (x nn : Nat) : Cpu :=
  { cpu with v := updF cpu.v x ((cpu.v x + nn) % 256) }

/-- 8xy0 - `Vx = Vy`. -/
def Cpu.assign_reg_to_reg (cpu : Cpu) (x y : Nat) : Cpu :=
  { cpu with v := updF cpu.v x (cpu.v y) }

/-- 8xy1 - `Vx = Vx | Vy`. -/
def Cpu.reg_or_reg (cpu : Cpu) (x y : Nat) : Cpu :=
  { cpu with v := updF cpu.v x (cpu.v x ||| cpu.v y) }

/-- 8xy2 - `Vx = Vx & Vy`. -/
def Cpu.reg_and_reg (cpu : Cpu) (x y : Nat) : Cpu :=
  { cpu with v := updF cpu.v x (cpu.v x &&& cpu.v y) }

/-- 8xy3 - `Vx = Vx ^ Vy`. -/
def Cpu.reg_xor_reg (cpu : Cpu) (x y : Nat) : Cpu :=
  { cpu with v := updF cpu.v x (cpu.v x ^^^ cpu.v y) }

/-- 8xy4 - `overflowing_add`: `v[x] = result.0` then `v[0xF] = result.1 as u8`.
The two register writes are sequenced, so `x = 0xF` is overwritten by the flag. -/
def Cpu.reg_plus_reg (cpu : Cpu) (x y : Nat) : Cpu :=
  let result0 := (cpu.v x + cpu.v y) % 256
  let result1 := if cpu.v x + cpu.v y > 255 then 1 else 0
  let v1 := updF cpu.v x result0
  { cpu with v := updF v1 15 result1 }

/-- 8xy5 - `overflowing_sub`: `v[x] = result.0` then `v[0xF] = (!borrow) as u8`. -/
def Cpu.reg_minus_reg (cpu : Cpu) (x y : Nat) : Cpu :=
  let result0 := (cpu.v x + 256 - cpu.v y) % 256
  let result1 := if cpu.v x < cpu.v y then 0 else 1
  let v1 := updF cpu.v x result0
  { cpu with v := updF v1 15 result1 }

/-- 8xy6 - shift right.  The flag `v[0xF]` is written first, then the result;
the source register is re-read after the flag write (visible when it is 0xF). -/
def Cpu.reg_shift_right (cpu : Cpu) (x y : Nat) : Cpu :=
  if cpu.shift_y then
    let v1 := updF cpu.v 15 (cpu.v y &&& 1)
    { cpu with v := updF v1 x (v1 y >>> 1) }
  else
    let v1 := updF cpu.v 15 (cpu.v x &&& 1)
    { cpu with v := updF v1 x (v1 x >>> 1) }

/-- 8xy7 - `Vx = Vy - Vx` via `overflowing_sub`, then `v[0xF] = (!borrow) as u8`. -/
def Cpu.reverse_reg_minus_reg (cpu : Cpu) (x y : Nat) : Cpu :=
  let result0 := (cpu.v y + 256 - cpu.v x) % 256
  let result1 := if cpu.v y < cpu.v x then 0 else 1
  let v1 := updF cpu.v x result0
  { cpu with v := updF v1 15 result1 }

/-- 8xyE - shift left (u8, so the result wraps `% 256`); flag first, result second. -/
def Cpu.reg_shift_left (cpu : Cpu) (x y : Nat) : Cpu :=
  if cpu.shift_y then
    let v1 := updF cpu.v 15 (cpu.v y >>> 7)
    { cpu with v := updF v1 x ((v1 y <<< 1) % 256) }
  else
    let v1 := updF cpu.v 15 (cpu.v x >>> 7)
    { cpu with v := updF v1 x ((v1 x <<< 1) % 256) }

/-- 9xy0 - skip if `Vx != Vy`. -/
def Cpu.if_not_reg_equals_reg (cpu : Cpu) (x y : Nat) : Cpu :=
  if cpu.v x ≠ cpu.v y then { cpu with program_counter := (cpu.program_counter + 2) % 65536 } else cpu

/-- Annn - `I = nnn`. -/
def Cpu.store_addr (cpu : Cpu) (nnn : Nat) : Cpu :=
  { cpu with i := nnn }

/-- Bnnn - `program_counter = v[0] as u16 + nnn - 2` (u16 wrapping). -/
def Cpu.reg_plus_nnn_jump (cpu : Cpu) (nnn : Nat) : Cpu :=
  { cpu with program_counter := (cpu.v 0 + nnn + 65534) % 65536 }

/-- Cxnn - `Vx = rng.gen::<u8>() & nn`, with the generated byte the oracle `rng`. -/
def Cpu.random (cpu : Cpu) (x nn : Nat) : Cpu :=
  { cpu with v := updF cpu.v x ((cpu.rng % 256) &&& nn) }

/-- One column of the Dxyn inner loop.  Reads `v[x]` and the pixel, may set the
collision flag `v[0xF]`, then XOR-writes the pixel at the wrapped coordinates. -/
def drawCellF (x : Nat) (row_pos sprite_value : Nat)
    (acc : (Nat → Nat) × Screen) (sprite_col : Nat) : (Nat → Nat) × Screen :=
  let col_pos := (sprite_col + acc.1 x) % 256
  let bit := (sprite_value >>> (7 - sprite_col)) &&& 1
  let state_bit := if acc.2 (col_pos % 64) (row_pos % 32) then 1 else 0
  let v' := if bit &&& state_bit > 0 then updF acc.1 15 1 else acc.1
  (v', setPix acc.2 (col_pos % 64) (row_pos % 32) (decide (bit ^^^ state_bit > 0)))

/-- One row of the Dxyn outer loop: `row_pos` and the sprite byte are computed
once per row (reading `v[y]` at row entry), then the 8 columns are blitted. -/
def drawRowF (x y i : Nat) (space : Nat → Nat)
    (acc : (Nat → Nat) × Screen) (sprite_row : Nat) : (Nat → Nat) × Screen :=
  let row_pos := (acc.1 y + sprite_row) % 256
  let sprite_value := space ((i + sprite_row) % 65536)
  (List.range 8).foldl (drawCellF x row_pos sprite_value) acc

/-- Dxyn - `draw_sprite`: `v[0xF] = 0`, then blit `n` sprite rows read from
`space` at `I`, XORing into the framebuffer with coordinate wraparound, and
setting `v[0xF] = 1` on any erase collision.  Returns the updated register
file and framebuffer; the raw read `mem.space[(self.i + sprite_row) as u16
as usize]` panics for indices ≥ 8192, modelled as `none` (the bound is
checked for the whole row set up front, which a state-discarding panic makes
equivalent to crashing at the first bad row). -/
def Cpu.draw_sprite (cpu : Cpu) (x y n : Nat) (space : Nat → Nat) (state : Screen) :
    Option ((Nat → Nat) × Screen) :=
  if ∀ r ∈ List.range n, (cpu.i + r) % 65536 < 8192 then
    some ((List.range n).foldl (drawRowF x y cpu.i space) (updF cpu.v 15 0, state))
  else none

/-- Ex9E - skip if `keys_pressed[v[x]]`; `none` models the index panic when
`v[x] ≥ 16`. -/
def Cpu.if_key_pressed (cpu : Cpu) (keys_pressed : Nat → Bool) (x : Nat) : Option Cpu :=
  if cpu.v x < 16 then
    some (if keys_pressed (cpu.v x) then
      { cpu with program_counter := (cpu.program_counter + 2) % 65536 } else cpu)
  else none

/-- ExA1 - skip if `!keys_pressed[v[x]]`. -/
def Cpu.if_not_key_pressed (cpu : Cpu) (keys_pressed : Nat → Bool) (x : Nat) : Option Cpu :=
  if cpu.v x < 16 then
    some (if keys_pressed (cpu.v x) then cpu else
      { cpu with program_counter := (cpu.program_counter + 2) % 65536 })
  else none

/-- Fx07 - `Vx = dt`. -/
def Cpu.store_dt (cpu : Cpu) (x : Nat) : Cpu :=
  { cpu with v := updF cpu.v x cpu.dt }

/-- Fx0A - `wait_for_keypress`: the two-phase blocking latch.  Phase A (no
snapshot) stores the snapshot and rolls pc back one word; phase B scans
indices 0..15 for the first changed key, writing it to `Vx` and clearing the
latch, or rolls pc back again when nothing changed. -/
def Cpu.wait_for_keypress (cpu : Cpu) (x : Nat) (keys_pressed : Nat → Bool) : Cpu :=
  match cpu.is_key_pressed_temp with
  | some is_key_pressed_og =>
    match (List.range 16).find? (fun idx => is_key_pressed_og idx != keys_pressed idx) with
    | some idx => { cpu with v := updF cpu.v x idx, is_key_pressed_temp := none }
    | none => { cpu with program_counter := (cpu.program_counter + 65534) % 65536 }
  | none =>
    { cpu with is_key_pressed_temp := some keys_pressed,
               program_counter := (cpu.program_counter + 65534) % 65536 }

/-- Fx15 - `dt = Vx`. -/
def Cpu.dt_from_reg (cpu : Cpu) (x : Nat) : Cpu :=
  { cpu with dt := cpu.v x }

/-- Fx18 - `st = Vx`. -/
def Cpu.st_from_reg (cpu : Cpu) (x : Nat) : Cpu :=
  { cpu with st := cpu.v x }

/-- Fx1E - `I = I + Vx` (u16). -/
def Cpu.add_reg_to_i (cpu : Cpu) (x : Nat) : Cpu :=
  { cpu with i := (cpu.i + cpu.v x) % 65536 }

/-- Fx29 - `I = 0x20 + v[x] * 5`, computed in u8 before the cast to u16. -/
def Cpu.get_sprite_address (cpu : Cpu) (x : Nat) : Cpu :=
  { cpu with i := (0x20 + (cpu.v x * 5) % 256) % 256 }

/-- The digit stack built by `get_bcd`: least-significant digit first. -/
def digitsRev (n : Nat) : List Nat :=
  if h : n = 0 then [] else n % 10 :: digitsRev (n / 10)
decreasing_by exact Nat.div_lt_self (Nat.pos_of_ne_zero h) (by norm_num)

/-- Fx33 - `get_bcd`: push digits of `Vx`, pad to three, reverse, and write
them to `space[I + idx]` (the index sum is computed in usize, no wrap; the
raw write panics for indices ≥ 8192, modelled as `none`). -/
def Cpu.get_bcd (cpu : Cpu) (x : Nat) (mem : Memory) : Option Memory :=
  let stack_of_digits := digitsRev (cpu.v x)
  let padded := stack_of_digits ++ List.replicate (3 - stack_of_digits.length) 0
  if ∀ idx < padded.length, cpu.i + idx < 8192 then
    some { space :=
      (padded.reverse.enum).foldl (fun sp p => updF sp (cpu.i + p.1) p.2) mem.space }
  else none

/-- Fx55 - `store_regs`: write `v[0..=x]` to `space[(I + reg) as u16]`, then
advance `I` by `x + 1` unless the store/load quirk is set.  The raw array
write panics for indices ≥ 8192, modelled as `none` when any touched index
is out of range. -/
def Cpu.store_regs (cpu : Cpu) (x : Nat) (mem : Memory) : Option (Cpu × Memory) :=
  if ∀ reg ≤ x, (cpu.i + reg) % 65536 < 8192 then
    let mem' : Memory :=
      { space := (List.range (x + 1)).foldl
          (fun sp reg => updF sp ((cpu.i + reg) % 65536) (cpu.v reg)) mem.space }
    some (if cpu.store_load_quirk then cpu
      else { cpu with i := (cpu.i + x + 1) % 65536 }, mem')
  else none

/-- Fx65 - `load_regs`: read `space[(I + reg) as u16]` into `v[0..=x]`, then
advance `I` by `x + 1` unless the store/load quirk is set.  The raw array
read panics for indices ≥ 8192, modelled as `none` when any touched index
is out of range. -/
def Cpu.load_regs (cpu : Cpu) (x : Nat) (mem : Memory) : Option Cpu :=
  if ∀ reg ≤ x, (cpu.i + reg) % 65536 < 8192 then
    let v' := (List.range (x + 1)).foldl
      (fun vv reg => updF vv reg (mem.space ((cpu.i + reg) % 65536))) cpu.v
    some (if cpu.store_load_quirk then { cpu with v := v' }
      else { cpu with v := v', i := (cpu.i + x + 1) % 65536 })
  else none

/-- Result of one `run_cycle` step: a returned `Ok` tag with the new machine
state, a returned `Err` message with the state as the function leaves it, or
a Rust panic (from `.expect` or an out-of-range index), which returns nothing. -/
inductive Outcome where
  | ok (tag : String) (cpu : Cpu) (mem : Memory) (state : Screen)
  | errRes (msg : String) (cpu : Cpu) (mem : Memory) (state : Screen)
  | panicked (msg : String)

/-- True exactly on a returned `Err` result. -/
def Outcome.isErr : Outcome → Bool
  | .errRes _ _ _ _ => true
  | _ => false

/-- True exactly on a modelled panic. -/
def Outcome.isPanic : Outcome → Bool
  | .panicked _ => true
  | _ => false

/-- The decode-and-dispatch `match` of `run_cycle`: nibble fields are
extracted from fixed bit positions and dispatched through the nested match
(rendered as an if-chain keyed on the same scrutinees, in source order). -/
def Cpu.dispatch (cpu : Cpu) (mem : Memory) (state : Screen) (keys_pressed : Nat → Bool)
    (op_code : Nat) : Outcome :=
  let first_nibble := op_code >>> 12
  let nnn := op_code &&& 0xFFF
  let nn := op_code &&& 0xFF
  let x := (op_code &&& 0xF00) >>> 8
  let y := (op_code &&& 0xF0) >>> 4
  let n := op_code &&& 0xF
  if first_nibble = 0x0 then
    if op_code = 0x00E0 then Outcome.ok "0E00" cpu mem (cls state)
    else if op_code = 0x00EE then
      match cpu.ret_sub with
      | some c => Outcome.ok "00EE" c mem state
      | none => Outcome.panicked "00EE: No addresses to pop"
    else if nnn = 0 then Outcome.errRes "Failed test run" cpu mem state
    else Outcome.ok "0nnn" (cpu.call_sub nnn) mem state
  else if first_nibble = 0x1 then Outcome.ok "1nnn" (cpu.jump nnn) mem state
  else if first_nibble = 0x2 then Outcome.ok "2nnn" (cpu.call_sub nnn) mem state
  else if first_nibble = 0x3 then Outcome.ok "3xnn" (cpu.if_reg_equals_nn x nn) mem state
  else if first_nibble = 0x4 then Outcome.ok "4xnn" (cpu.if_not_reg_equals_nn x nn) mem state
  else if first_nibble = 0x5 then
    if n = 0 then Outcome.ok "5xy0" (cpu.if_reg_equals_reg x y) mem state
    else Outcome.errRes "5xy0: Tail nibble was not 0x0" cpu mem state
  else if first_nibble = 0x6 then Outcome.ok "6xnn" (cpu.reg_store_nn x nn) mem state
  else if first_nibble = 0x7 then Outcome.ok "7xnn" (cpu.reg_add_nn x nn) mem state
  else if first_nibble = 0x8 then
    if n = 0x0 then Outcome.ok "8xy0" (cpu.assign_reg_to_reg x y) mem state
    else if n = 0x1 then Outcome.ok "8xy1" (cpu.reg_or_reg x y) mem state
    else if n = 0x2 then Outcome.ok "8xy2" (cpu.reg_and_reg x y) mem state
    else if n = 0x3 then Outcome.ok "8xy3" (cpu.reg_xor_reg x y) mem state
    else if n = 0x4 then Outcome.ok "8xy4" (cpu.reg_plus_reg x y) mem state
    else if n = 0x5 then Outcome.ok "8xy5" (cpu.reg_minus_reg x y) mem state
    else if n = 0x6 then Outcome.ok "8xy6" (cpu.reg_shift_right x y) mem state
    else if n = 0x7 then Outcome.ok "8xy7" (cpu.reverse_reg_minus_reg x y) mem state
    else if n = 0xE then Outcome.ok "8xyE" (cpu.reg_shift_left x y) mem state
    else Outcome.errRes "n was not in the expected values for 0x8... ops" cpu mem state
  else if first_nibble = 0x9 then
    if n = 0 then Outcome.ok "9xy0" (cpu.if_not_reg_equals_reg x y) mem state
    else Outcome.errRes "n was not in the expected values for 0x9... ops" cpu mem state
  else if first_nibble = 0xA then Outcome.ok "Annn" (cpu.store_addr nnn) mem state
  else if first_nibble = 0xB then Outcome.ok "Bnnn" (cpu.reg_plus_nnn_jump nnn) mem state
  else if first_nibble = 0xC then Outcome.ok "Cxnn" (cpu.random x nn) mem state
  else if first_nibble = 0xD then
    match cpu.draw_sprite x y n mem.space state with
    | some p => Outcome.ok "Dxyn" { cpu with v := p.1 } mem p.2
    | none => Outcome.panicked "index out of bounds"
  else if first_nibble = 0xE then
    if nn = 0x9E then
      match cpu.if_key_pressed keys_pressed x with
      | some c => Outcome.ok "Ex9E" c mem state
      | none => Outcome.panicked "index out of bounds"
    else if nn = 0xA1 then
      match cpu.if_not_key_pressed keys_pressed x with
      | some c => Outcome.ok "ExA1" c mem state
      | none => Outcome.panicked "index out of bounds"
    else Outcome.errRes "nn was not in the expected values for 0xE... ops" cpu mem state
  else if first_nibble = 0xF then
    if nn = 0x07 then Outcome.ok "Fx07" (cpu.store_dt x) mem state
    else if nn = 0x0A then Outcome.ok "Fx0A" (cpu.wait_for_keypress x keys_pressed) mem state
    else if nn = 0x15 then Outcome.ok "Fx15" (cpu.dt_from_reg x) mem state
    else if nn = 0x18 then Outcome.ok "Fx18" (cpu.st_from_reg x) mem state
    else if nn = 0x1E then Outcome.ok "Fx1E" (cpu.add_reg_to_i x) mem state
    else if nn = 0x29 then Outcome.ok "Fx29" (cpu.get_sprite_address x) mem state
    else if nn = 0x33 then
      match cpu.get_bcd x mem with
      | some m' => Outcome.ok "Fx33" cpu m' state
      | none => Outcome.panicked "index out of bounds"
    else if nn = 0x55 then
      match cpu.store_regs x mem with
      | some p => Outcome.ok "Fx55" p.1 p.2 state
      | none => Outcome.panicked "index out of bounds"
    else if nn = 0x65 then
      match cpu.load_regs x mem with
      | some c => Outcome.ok "Fx65" c mem state
      | none => Outcome.panicked "index out of bounds"
    else Outcome.errRes "nn was not in the expected values for 0xF... ops" cpu mem state
  else Outcome.errRes "first_nibble bigger than 0xF" cpu mem state

/-- The unconditional `self.program_counter += 2` that `run_cycle` executes
after the dispatch match, on both the `Ok` and the `Err` path (u16 wrap). -/
def Outcome.advance : Outcome → Outcome
  | .ok t c m s => .ok t { c with program_counter := (c.program_counter + 2) % 65536 } m s
  | .errRes msg c m s =>
      .errRes msg { c with program_counter := (c.program_counter + 2) % 65536 } m s
  | .panicked msg => .panicked msg

/-- `Cpu::run_cycle`: fetch the opcode word at pc (the `.expect` on a failed
read is a panic), dispatch it, then advance pc by one word. -/
def Cpu.run_cycle (cpu : Cpu) (mem : Memory) (state : Screen) (keys_pressed : Nat → Bool) :
    Outcome :=
  match mem.read cpu.program_counter with
  | Except.error _ => Outcome.panicked "run_cycle: Failed to read op_code"
  | Except.ok op_code => (cpu.dispatch mem state keys_pressed op_code).advance

/-! ### Basic facts about map updates -/

theorem updF_apply (f : Nat → Nat) (k v j : Nat) : updF f k v j = if j = k then v else f j := rfl

@[simp] theorem updF_same (f : Nat → Nat) (k v : Nat) : updF f k v k = v := by
  simp [updF]

theorem updF_other (f : Nat → Nat) (k v j : Nat) (h : j ≠ k) : updF f k v j = f j := by
  simp [updF, h]

/-! ### Concrete machine states used by witnesses and counterexamples -/

/-- An all-zero machine state with pc at the boot address. -/
def cpu0 : Cpu where
  v := fun _ => 0
  stack := []
  program_counter := 0x200
  i := 0
  dt := 0
  st := 0
  rng := 0
  is_key_pressed_temp := none
  store_load_quirk := false
  shift_y := false
  drawn := false

/-- All-zero memory. -/
def mem0 : Memory := { space := fun _ => 0 }

/-- All-clear framebuffer. -/
def screen0 : Screen := fun _ _ => false

/-- No key pressed. -/
def keys0 : Nat → Bool := fun _ => false

/-! ### C5: add / subtract / reverse-subtract -/

/-- C5 (amended): for destination selector `x ≠ 0xF`, 8xy4 stores
`(Vx+Vy) mod 256` into `Vx`, 8xy5 stores `(Vx−Vy) mod 256`, 8xy7 stores
`(Vy−Vx) mod 256` (byte differences written as `a + 256 - b` over ℕ); VF is
set to the carry/no-borrow flag exactly as the claim states for every `x`
(when `x = 0xF` the flag write lands after the result write and overwrites
it).  The claim's two concrete instances are included. -/
theorem c5_arith (cpu : Cpu) (x y : Nat) :
    (x ≠ 15 → (cpu.reg_plus_reg x y).v x = (cpu.v x + cpu.v y) % 256) ∧
    ((cpu.reg_plus_reg x y).v 15 = if cpu.v x + cpu.v y > 255 then 1 else 0) ∧
    (x ≠ 15 → (cpu.reg_minus_reg x y).v x = (cpu.v x + 256 - cpu.v y) % 256) ∧
    ((cpu.reg_minus_reg x y).v 15 = if cpu.v y ≤ cpu.v x then 1 else 0) ∧
    (x ≠ 15 → (cpu.reverse_reg_minus_reg x y).v x = (cpu.v y + 256 - cpu.v x) % 256) ∧
    ((cpu.reverse_reg_minus_reg x y).v 15 = if cpu.v x ≤ cpu.v y then 1 else 0) ∧
    (cpu.v x = 0xFF → cpu.v y = 0x01 → x ≠ 15 →
      (cpu.reg_plus_reg x y).v x = 0x00 ∧ (cpu.reg_plus_reg x y).v 15 = 1) ∧
    (cpu.v x = 0x05 → cpu.v y = 0x0A → x ≠ 15 →
      (cpu.reg_minus_reg x y).v x = 0xFB ∧ (cpu.reg_minus_reg x y).v 15 = 0) := by
  refine ⟨?_, ?_, ?_, ?_, ?_, ?_, ?_, ?_⟩
  · intro hx
    simp [Cpu.reg_plus_reg, updF_same, updF_other _ _ _ _ hx]
  · simp [Cpu.reg_plus_reg, updF_same]
  · intro hx
    simp [Cpu.reg_minus_reg, updF_same, updF_other _ _ _ _ hx]
  · simp only [Cpu.reg_minus_reg, updF_same]
    split <;> split <;> omega
  · intro hx
    simp [Cpu.reverse_reg_minus_reg, updF_same, updF_other _ _ _ _ hx]
  · simp only [Cpu.reverse_reg_minus_reg, updF_same]
    split <;> split <;> omega
  · intro h1 h2 hx
    constructor
    · simp [Cpu.reg_plus_reg, h1, h2, updF_same, updF_other _ _ _ _ hx]
    · simp [Cpu.reg_plus_reg, h1, h2, updF_same]
  · intro h1 h2 hx
    constructor
    · simp [Cpu.reg_minus_reg, h1, h2, updF_same, updF_other _ _ _ _ hx]
    · simp [Cpu.reg_minus_reg, h1, h2, updF_same]

/-- Register file holding 0xFF in V0 and 0x01 in V1. -/
def cpuW5 : Cpu :=
  { cpu0 with v := fun j => if j = 0 then 0xFF else if j = 1 then 0x01 else 0 }

/-- Witness for `c5_arith` at `x = 0`, `y = 1`, `Vx = 0xFF`, `Vy = 0x01`. -/
theorem c5_arith_witness :
    (cpuW5.reg_plus_reg 0 1).v 0 = (cpuW5.v 0 + cpuW5.v 1) % 256 ∧
    (cpuW5.reg_plus_reg 0 1).v 0 = 0x00 ∧ (cpuW5.reg_plus_reg 0 1).v 15 = 1 :=
  ⟨(c5_arith cpuW5 0 1).1 (by decide),
   ((c5_arith cpuW5 0 1).2.2.2.2.2.2.1 (by decide) (by decide) (by decide)).1,
   ((c5_arith cpuW5 0 1).2.2.2.2.2.2.1 (by decide) (by decide) (by decide)).2⟩

/-- Register file holding 3 in VF. -/
def cpuC5 : Cpu := { cpu0 with v := fun j => if j = 15 then 3 else 0 }

/-- Counterexample to C5 as stated: with `x = y = 0xF` and `VF = 3`, the add
8xy4 leaves `Vx (= VF)` holding the carry flag 0, not `(Vx+Vy) mod 256 = 6`:
the flag write overwrites the stored sum. -/
theorem c5_counterexample :
    (cpuC5.reg_plus_reg 15 15).v 15 = 0 ∧ (cpuC5.v 15 + cpuC5.v 15) % 256 = 6 := by
  constructor <;> rfl

/-! ### C6 / C10: the shift family -/

/-- C6 (amended): for `x ≠ 0xF` and, when `shift_y_quirk` is set, `y ≠ 0xF`:
8xy6/8xyE take their source from `Vx`, or from `Vy` under the quirk; VF
receives the shifted-out bit of the pre-shift source (`src &&& 1` right,
`src >>> 7` left), and the shifted result is written to `Vx` regardless of
the source register. -/
theorem c6_shift (cpu : Cpu) (x y : Nat) (hx15 : x ≠ 15)
    (hq : cpu.shift_y = true → y ≠ 15) :
    ((cpu.reg_shift_right x y).v x = (if cpu.shift_y then cpu.v y else cpu.v x) >>> 1) ∧
    ((cpu.reg_shift_right x y).v 15 = (if cpu.shift_y then cpu.v y else cpu.v x) &&& 1) ∧
    ((cpu.reg_shift_left x y).v x = ((if cpu.shift_y then cpu.v y else cpu.v x) <<< 1) % 256) ∧
    ((cpu.reg_shift_left x y).v 15 = (if cpu.shift_y then cpu.v y else cpu.v x) >>> 7) := by
  cases hb : cpu.shift_y with
  | false =>
      refine ⟨?_, ?_, ?_, ?_⟩ <;>
        simp [Cpu.reg_shift_right, Cpu.reg_shift_left, hb, updF_same,
          updF_other _ _ _ _ hx15, updF_other _ _ _ _ (Ne.symm hx15)]
  | true =>
      have hy := hq hb
      refine ⟨?_, ?_, ?_, ?_⟩ <;>
        simp [Cpu.reg_shift_right, Cpu.reg_shift_left, hb, updF_same,
          updF_other _ _ _ _ hx15, updF_other _ _ _ _ (Ne.symm hx15),
          updF_other _ _ _ _ hy]

/-- Register file holding 0xB6 in V2, quirk set. -/
def cpuW6 : Cpu :=
  { cpu0 with v := fun j => if j = 2 then 0xB6 else 0, shift_y := true }

/-- Witness for `c6_shift` at `x = 1`, `y = 2`, quirk set, `Vy = 0xB6`. -/
theorem c6_shift_witness :
    (cpuW6.reg_shift_right 1 2).v 1 = (if cpuW6.shift_y then cpuW6.v 2 else cpuW6.v 1) >>> 1 ∧
    (cpuW6.reg_shift_left 1 2).v 15 = (if cpuW6.shift_y then cpuW6.v 2 else cpuW6.v 1) >>> 7 :=
  ⟨(c6_shift cpuW6 1 2 (by decide) (fun _ => by decide)).1,
   (c6_shift cpuW6 1 2 (by decide) (fun _ => by decide)).2.2.2⟩

/-- Register file holding 4 in VF, quirk unset. -/
def cpuC6 : Cpu := { cpu0 with v := fun j => if j = 15 then 4 else 0 }

/-- Counterexample to C6 as stated: with `x = 0xF` (quirk unset, source
`VF = 4`), 8xy6 must by the claim write the shifted result `4 >>> 1 = 2` into
`Vx = VF`, but the code leaves `VF = 0`, because the result is re-read from
the register after the flag write clobbered it. -/
theorem c6_counterexample :
    (cpuC6.reg_shift_right 15 0).v 15 = 0 ∧ cpuC6.v 15 >>> 1 = 2 := by
  constructor <;> rfl

/-- C10: when a shift instruction's destination `x` is 0xF the flag write is
overwritten by the result write: with the quirk unset, 8xy6 leaves `VF = 0`
and 8xyE leaves `VF = ((old VF >> 7) << 1) % 256`, which is 0 or 2 for byte
contents; with the quirk set and `y ≠ 0xF`, VF ends holding the shifted
value of `Vy` rather than the shifted-out bit. -/
theorem c10_shift_alias (cpu : Cpu) (y : Nat) :
    (cpu.shift_y = false → (cpu.reg_shift_right 15 y).v 15 = 0) ∧
    (cpu.shift_y = false →
      (cpu.reg_shift_left 15 y).v 15 = ((cpu.v 15 >>> 7) <<< 1) % 256 ∧
      (cpu.v 15 < 256 →
        (cpu.reg_shift_left 15 y).v 15 = 0 ∨ (cpu.reg_shift_left 15 y).v 15 = 2)) ∧
    (cpu.shift_y = true → y ≠ 15 → (cpu.reg_shift_right 15 y).v 15 = cpu.v y >>> 1) ∧
    (cpu.shift_y = true → y ≠ 15 → (cpu.reg_shift_left 15 y).v 15 = (cpu.v y <<< 1) % 256) := by
  refine ⟨?_, ?_, ?_, ?_⟩
  · intro hb
    simp only [Cpu.reg_shift_right, hb, Bool.false_eq_true, if_false, updF_same,
      Nat.and_one_is_mod]
    have : cpu.v 15 % 2 < 2 := Nat.mod_lt _ (by norm_num)
    rw [Nat.shiftRight_eq_div_pow]
    omega
  · intro hb
    have h1 : (cpu.reg_shift_left 15 y).v 15 = ((cpu.v 15 >>> 7) <<< 1) % 256 := by
      simp [Cpu.reg_shift_left, hb, updF_same]
    refine ⟨h1, fun hv => ?_⟩
    rw [h1]
    rw [Nat.shiftRight_eq_div_pow, Nat.shiftLeft_eq]
    have : cpu.v 15 / 2 ^ 7 ≤ 1 := by omega
    interval_cases h : cpu.v 15 / 2 ^ 7 <;> simp
  · intro hb hy
    simp [Cpu.reg_shift_right, hb, updF_same, updF_other _ _ _ _ hy]
  · intro hb hy
    simp [Cpu.reg_shift_left, hb, updF_same, updF_other _ _ _ _ hy]

/-- Witness for `c10_shift_alias` on `cpuC6` (VF = 4, quirk unset) and on
`cpuW6` (quirk set, `Vy = 0xB6`). -/
theorem c10_shift_alias_witness :
    (cpuC6.reg_shift_right 15 0).v 15 = 0 ∧
    (cpuW6.reg_shift_left 15 2).v 15 = (cpuW6.v 2 <<< 1) % 256 :=
  ⟨(c10_shift_alias cpuC6 0).1 rfl,
   (c10_shift_alias cpuW6 2).2.2.2 rfl (by decide)⟩

/-! ### C8 / C9: the Memory word operations -/

/-- C8: `Memory.write` fails `OutOfBounds` exactly when the address is below
0x200 or above 0xFFF and otherwise stores the split word and succeeds;
`Memory.unbound_write` additionally permits addresses below 0x200 and fails
exactly above 0xFFF.  The concrete 0x1FF instances are included. -/
theorem memory_write_bounds (m : Memory) (pos data : Nat) :
    (Memory.write m pos data = Except.error "Out of bounds exception" ↔
      pos < 0x200 ∨ 0xFFF < pos) ∧
    (Memory.unbound_write m pos data = Except.error "Out of bounds exception" ↔
      0xFFF < pos) ∧
    (0x200 ≤ pos → pos ≤ 0xFFF →
      Memory.write m pos data = Except.ok
        { space := updF (updF m.space ((pos * 2) % 65536) ((data >>> 8) % 256))
            ((pos * 2) % 65536 + 1) (data % 256) }) ∧
    (pos ≤ 0xFFF →
      Memory.unbound_write m pos data = Except.ok
        { space := updF (updF m.space ((pos * 2) % 65536) ((data >>> 8) % 256))
            ((pos * 2) % 65536 + 1) (data % 256) }) ∧
    Memory.write m 0x1FF data = Except.error "Out of bounds exception" ∧
    Memory.unbound_write m 0x1FF data = Except.ok
      { space := updF (updF m.space 0x3FE ((data >>> 8) % 256)) 0x3FF (data % 256) } := by
  refine ⟨?_, ?_, ?_, ?_, ?_, ?_⟩
  · unfold Memory.write
    split
    · rename_i h
      constructor
      · intro he
        exact absurd he (by simp)
      · omega
    · rename_i h
      simp only [true_iff]
      omega
  · unfold Memory.unbound_write
    split
    · rename_i h
      constructor
      · intro he
        exact absurd he (by simp)
      · omega
    · rename_i h
      simp only [true_iff]
      omega
  · intro h1 h2
    unfold Memory.write
    rw [if_pos ⟨h1, h2⟩]
  · intro h2
    unfold Memory.unbound_write
    rw [if_pos h2]
  · unfold Memory.write
    rw [if_neg (by omega)]
  · unfold Memory.unbound_write
    rw [if_pos (by omega)]

/-- Witness for `memory_write_bounds` at `pos = 0x400`, `data = 0xFFFF`. -/
theorem memory_write_bounds_witness :
    Memory.write mem0 0x400 0xFFFF = Except.ok
      { space := updF (updF mem0.space 0x800 0xFF) 0x801 0xFF } ∧
    (Memory.write mem0 0x1FF 0xFFFF = Except.error "Out of bounds exception" ↔
      0x1FF < 0x200 ∨ 0xFFF < 0x1FF) :=
  ⟨(memory_write_bounds mem0 0x400 0xFFFF).2.2.1 (by decide) (by decide),
   (memory_write_bounds mem0 0x1FF 0xFFFF).1⟩

/-- C9: for every word address `pos ≤ 0xFFF` the word operations address the
backing bytes `2*pos` and `2*pos + 1` only, and both indices are below the
8192-byte backing store: a successful `write`/`unbound_write` changes no
other backing index, and `read pos` is determined by those two bytes alone. -/
theorem memory_touched_indices (m m2 : Memory) (pos data : Nat) (hp : pos ≤ 0xFFF) :
    2 * pos + 1 < 8192 ∧
    (∀ m', Memory.write m pos data = Except.ok m' →
      m'.space (2 * pos) = (data >>> 8) % 256 ∧
      m'.space (2 * pos + 1) = data % 256 ∧
      ∀ j, j ≠ 2 * pos → j ≠ 2 * pos + 1 → m'.space j = m.space j) ∧
    (∀ m', Memory.unbound_write m pos data = Except.ok m' →
      m'.space (2 * pos) = (data >>> 8) % 256 ∧
      m'.space (2 * pos + 1) = data % 256 ∧
      ∀ j, j ≠ 2 * pos → j ≠ 2 * pos + 1 → m'.space j = m.space j) ∧
    Memory.read m pos = Except.ok ((m.space (2 * pos) <<< 8) ||| m.space (2 * pos + 1)) ∧
    (m2.space (2 * pos) = m.space (2 * pos) →
     m2.space (2 * pos + 1) = m.space (2 * pos + 1) →
     Memory.read m2 pos = Memory.read m pos) := by
  have hmod : (pos * 2) % 65536 = 2 * pos := by omega
  refine ⟨by omega, ?_, ?_, ?_, ?_⟩
  · intro m' hw
    simp only [Memory.write, hmod] at hw
    by_cases hP : 0x200 ≤ pos ∧ pos ≤ 0xFFF
    · rw [if_pos hP] at hw
      cases hw
      refine ⟨?_, ?_, ?_⟩
      · dsimp only
        rw [updF_other _ _ _ _ (by omega), updF_same]
      · simp [updF_same]
      · intro j h1 h2
        dsimp only
        rw [updF_other _ _ _ _ h2, updF_other _ _ _ _ h1]
    · rw [if_neg hP] at hw
      cases hw
  · intro m' hw
    simp only [Memory.unbound_write, hmod] at hw
    rw [if_pos hp] at hw
    cases hw
    refine ⟨?_, ?_, ?_⟩
    · dsimp only
      rw [updF_other _ _ _ _ (by omega), updF_same]
    · simp [updF_same]
    · intro j h1 h2
      dsimp only
      rw [updF_other _ _ _ _ h2, updF_other _ _ _ _ h1]
  · unfold Memory.read
    rw [hmod, if_pos hp]
  · intro he1 he2
    unfold Memory.read
    rw [hmod, if_pos hp, if_pos hp, he1, he2]

/-- Witness for `memory_touched_indices` at `pos = 0xFFF` (the maximal
address: touched bytes 8190 and 8191). -/
theorem memory_touched_indices_witness :
    2 * 0xFFF + 1 < 8192 ∧
    Memory.read mem0 0xFFF = Except.ok ((mem0.space 8190 <<< 8) ||| mem0.space 8191) :=
  ⟨(memory_touched_indices mem0 mem0 0xFFF 0 (by decide)).1,
   (memory_touched_indices mem0 mem0 0xFFF 0 (by decide)).2.2.2.1⟩

/-! ### C1: the pc-advance invariant and absolute redirect targets -/

/-- The 12-bit address operand is always below 4096. -/
theorem and_fff_lt (op : Nat) : op &&& 0xFFF < 4096 := by
  have h : (0xFFF : Nat) = 2 ^ 12 - 1 := by norm_num
  rw [h, Nat.and_pow_two_sub_one_eq_mod]
  exact Nat.mod_lt _ (by norm_num)

/-- Advancing preserves the constructor and only bumps pc. -/
theorem advance_isErr (o : Outcome) : o.advance.isErr = o.isErr := by
  cases o <;> rfl

/-- C1: whenever the fetch succeeds, the step result is the dispatch result
with pc unconditionally advanced one word (on the `Ok` and the `Err` path
alike); and each handler that redirects control flow to an absolute target —
jump 1nnn, subroutine call 2nnn and 0nnn, return 00EE, register-offset jump
Bnnn — assigns `target - 2` (mod 2^16) so that the observed post-step pc is
exactly the absolute target: `nnn` for jumps and calls, one word past the
pushed call-site address for 00EE, `V0 + nnn` for Bnnn. -/
theorem c1_pc_advance (cpu : Cpu) (mem : Memory) (state : Screen) (keys : Nat → Bool)
    (op : Nat) (hread : mem.read cpu.program_counter = Except.ok op) :
    (∀ tag c' m' s', cpu.dispatch mem state keys op = Outcome.ok tag c' m' s' →
      cpu.run_cycle mem state keys =
        Outcome.ok tag { c' with program_counter := (c'.program_counter + 2) % 65536 } m' s') ∧
    (∀ msg c' m' s', cpu.dispatch mem state keys op = Outcome.errRes msg c' m' s' →
      cpu.run_cycle mem state keys =
        Outcome.errRes msg { c' with program_counter := (c'.program_counter + 2) % 65536 } m' s') ∧
    (op >>> 12 = 0x1 →
      cpu.run_cycle mem state keys =
        Outcome.ok "1nnn" { cpu with program_counter := op &&& 0xFFF } mem state) ∧
    (op >>> 12 = 0x2 →
      cpu.run_cycle mem state keys =
        Outcome.ok "2nnn" { cpu with stack := cpu.program_counter :: cpu.stack,
                                     program_counter := op &&& 0xFFF } mem state) ∧
    (op >>> 12 = 0x0 → op ≠ 0x00E0 → op ≠ 0x00EE → op &&& 0xFFF ≠ 0 →
      cpu.run_cycle mem state keys =
        Outcome.ok "0nnn" { cpu with stack := cpu.program_counter :: cpu.stack,
                                     program_counter := op &&& 0xFFF } mem state) ∧
    (op = 0x00EE → ∀ a rest, cpu.stack = a :: rest →
      cpu.run_cycle mem state keys =
        Outcome.ok "00EE" { cpu with program_counter := (a + 2) % 65536, stack := rest }
          mem state) ∧
    (op >>> 12 = 0xB → cpu.v 0 + (op &&& 0xFFF) < 65536 →
      cpu.run_cycle mem state keys =
        Outcome.ok "Bnnn" { cpu with program_counter := cpu.v 0 + (op &&& 0xFFF) } mem state) := by
  have hnnn : op &&& 0xFFF < 4096 := and_fff_lt op
  have hrc : cpu.run_cycle mem state keys = (cpu.dispatch mem state keys op).advance := by
    unfold Cpu.run_cycle
    rw [hread]
  refine ⟨?_, ?_, ?_, ?_, ?_, ?_, ?_⟩
  · intro tag c' m' s' hd
    rw [hrc, hd]
    rfl
  · intro msg c' m' s' hd
    rw [hrc, hd]
    rfl
  · intro hop
    have harith : (((op &&& 0xFFF) + 65534) % 65536 + 2) % 65536 = op &&& 0xFFF := by omega
    rw [hrc]
    simp only [Cpu.dispatch, hop]
    norm_num [Cpu.jump, Outcome.advance, harith]
  · intro hop
    have harith : (((op &&& 0xFFF) + 65534) % 65536 + 2) % 65536 = op &&& 0xFFF := by omega
    rw [hrc]
    simp only [Cpu.dispatch, hop]
    norm_num [Cpu.call_sub, Outcome.advance, harith]
  · intro hop hne1 hne2 hnz
    have harith : (((op &&& 0xFFF) + 65534) % 65536 + 2) % 65536 = op &&& 0xFFF := by omega
    rw [hrc]
    simp only [Cpu.dispatch, hop]
    norm_num [hne1, hne2, hnz, Cpu.call_sub, Outcome.advance, harith]
  · intro hop a rest hstack
    subst hop
    rw [hrc]
    have hret : cpu.ret_sub = some { cpu with program_counter := a, stack := rest } := by
      unfold Cpu.ret_sub
      rw [hstack]
    simp [Cpu.dispatch, hret, Outcome.advance]
  · intro hop hlt
    have harith : ((cpu.v 0 + (op &&& 0xFFF) + 65534) % 65536 + 2) % 65536 =
        cpu.v 0 + (op &&& 0xFFF) := by omega
    rw [hrc]
    simp only [Cpu.dispatch, hop]
    norm_num [Cpu.reg_plus_nnn_jump, Outcome.advance, harith]

/-- Memory holding opcode 0x1234 (jump to 0x234) at the boot address 0x200. -/
def memW1 : Memory := { space := updF (updF mem0.space 1024 0x12) 1025 0x34 }

/-- Witness for `c1_pc_advance`: a concrete jump `0x1234` fetched at pc
0x200 lands the post-step pc exactly on 0x234. -/
theorem c1_pc_advance_witness :
    cpu0.run_cycle memW1 screen0 keys0 =
      Outcome.ok "1nnn" { cpu0 with program_counter := 0x1234 &&& 0xFFF } memW1 screen0 :=
  (c1_pc_advance cpu0 memW1 screen0 keys0 0x1234 (by rfl)).2.2.1 (by rfl)

/-! ### C2: failure modes of a step -/

/-- Characterization of the opcodes that fall through every dispatch arm and
hit an `Err` case of `run_cycle`'s match (including the `0nnn` guard that
rejects `nnn = 0`). -/
def unknown_op (op_code : Nat) : Prop :=
  let first_nibble := op_code >>> 12
  let nnn := op_code &&& 0xFFF
  let nn := op_code &&& 0xFF
  let n := op_code &&& 0xF
  (first_nibble = 0x0 ∧ op_code ≠ 0x00E0 ∧ op_code ≠ 0x00EE ∧ nnn = 0) ∨
  (first_nibble = 0x5 ∧ n ≠ 0) ∨
  (first_nibble = 0x8 ∧ n ≠ 0x0 ∧ n ≠ 0x1 ∧ n ≠ 0x2 ∧ n ≠ 0x3 ∧ n ≠ 0x4 ∧ n ≠ 0x5 ∧
    n ≠ 0x6 ∧ n ≠ 0x7 ∧ n ≠ 0xE) ∨
  (first_nibble = 0x9 ∧ n ≠ 0) ∨
  (first_nibble = 0xE ∧ nn ≠ 0x9E ∧ nn ≠ 0xA1) ∨
  (first_nibble = 0xF ∧ nn ≠ 0x07 ∧ nn ≠ 0x0A ∧ nn ≠ 0x15 ∧ nn ≠ 0x18 ∧ nn ≠ 0x1E ∧
    nn ≠ 0x29 ∧ nn ≠ 0x33 ∧ nn ≠ 0x55 ∧ nn ≠ 0x65) ∨
  (0xF < first_nibble)

/-- Every unmatched opcode makes the dispatch return an `Err` result with the
machine state untouched. -/
theorem unknown_dispatch (cpu : Cpu) (mem : Memory) (state : Screen) (keys : Nat → Bool)
    (op : Nat) (hu : unknown_op op) :
    ∃ msg, cpu.dispatch mem state keys op = Outcome.errRes msg cpu mem state := by
  rcases hu with ⟨h0, hne1, hne2, hz⟩ | ⟨h5, hn⟩ |
    ⟨h8, k0, k1, k2, k3, k4, k5, k6, k7, kE⟩ | ⟨h9, hn⟩ | ⟨hE, m1, m2⟩ |
    ⟨hF, m1, m2, m3, m4, m5, m6, m7, m8, m9⟩ | hBig
  · exact ⟨"Failed test run", by simp only [Cpu.dispatch, h0]; norm_num [hne1, hne2, hz]⟩
  · exact ⟨"5xy0: Tail nibble was not 0x0", by simp only [Cpu.dispatch, h5]; norm_num [hn]⟩
  · exact ⟨"n was not in the expected values for 0x8... ops",
      by simp only [Cpu.dispatch, h8]; norm_num [k0, k1, k2, k3, k4, k5, k6, k7, kE]⟩
  · exact ⟨"n was not in the expected values for 0x9... ops",
      by simp only [Cpu.dispatch, h9]; norm_num [hn]⟩
  · exact ⟨"nn was not in the expected values for 0xE... ops",
      by simp only [Cpu.dispatch, hE]; norm_num [m1, m2]⟩
  · exact ⟨"nn was not in the expected values for 0xF... ops",
      by simp only [Cpu.dispatch, hF]; norm_num [m1, m2, m3, m4, m5, m6, m7, m8, m9]⟩
  · refine ⟨"first_nibble bigger than 0xF", ?_⟩
    simp only [Cpu.dispatch]
    repeat rw [if_neg (by omega)]

/-- C2 (amended): an opcode matching none of the defined dispatch cases is
returned synchronously as the step's `Err` result, leaving registers, memory
and framebuffer untouched apart from the universal pc advance; but the other
two failure kinds do not come back as error results: an out-of-bounds fetch
at pc and a return-from-subroutine 00EE on an empty call stack both panic
(the code unwraps them with `.expect`) instead of returning the error. -/
theorem c2_failure_modes (cpu : Cpu) (mem : Memory) (state : Screen) (keys : Nat → Bool)
    (op : Nat) :
    (∀ e, mem.read cpu.program_counter = Except.error e →
      cpu.run_cycle mem state keys = Outcome.panicked "run_cycle: Failed to read op_code") ∧
    (0xFFF < cpu.program_counter →
      cpu.run_cycle mem state keys = Outcome.panicked "run_cycle: Failed to read op_code") ∧
    (mem.read cpu.program_counter = Except.ok op → unknown_op op →
      (cpu.run_cycle mem state keys).isErr = true ∧
      (∀ msg c' m' s', cpu.run_cycle mem state keys = Outcome.errRes msg c' m' s' →
        c' = { cpu with program_counter := (cpu.program_counter + 2) % 65536 } ∧
        m' = mem ∧ s' = state)) ∧
    (mem.read cpu.program_counter = Except.ok op → op = 0x00EE → cpu.stack = [] →
      cpu.run_cycle mem state keys = Outcome.panicked "00EE: No addresses to pop") := by
  refine ⟨?_, ?_, ?_, ?_⟩
  · intro e he
    unfold Cpu.run_cycle
    rw [he]
  · intro hpc
    unfold Cpu.run_cycle
    simp only [Memory.read]
    rw [if_neg (by omega : ¬ cpu.program_counter ≤ 0xFFF)]
  · intro hread hu
    obtain ⟨msg, hd⟩ := unknown_dispatch cpu mem state keys op hu
    have hrc0 : cpu.run_cycle mem state keys = (cpu.dispatch mem state keys op).advance := by
      unfold Cpu.run_cycle
      rw [hread]
    have hrc : cpu.run_cycle mem state keys =
        Outcome.errRes msg { cpu with program_counter := (cpu.program_counter + 2) % 65536 }
          mem state := by
      rw [hrc0, hd]
      rfl
    refine ⟨by rw [hrc]; rfl, ?_⟩
    intro msg' c' m' s' h
    rw [hrc] at h
    cases h
    exact ⟨rfl, rfl, rfl⟩
  · intro hread hop hstack
    subst hop
    unfold Cpu.run_cycle
    rw [hread]
    have hret : cpu.ret_sub = none := by
      unfold Cpu.ret_sub
      rw [hstack]
    simp [Cpu.dispatch, hret, Outcome.advance]

/-- Machine state whose pc points past the addressable window. -/
def cpuHighPc : Cpu := { cpu0 with program_counter := 0x1000 }

/-- Witness for `c2_failure_modes`: an opcode made only of unknown nibble
combinations (0x5001) is returned as an `Err`, and the fetch-out-of-bounds
clause fires at pc 0x1000. -/
theorem c2_failure_modes_witness :
    (cpu0.run_cycle { space := updF (updF mem0.space 1024 0x50) 1025 0x01 } screen0
      keys0).isErr = true ∧
    cpuHighPc.run_cycle mem0 screen0 keys0 =
      Outcome.panicked "run_cycle: Failed to read op_code" :=
  ⟨((c2_failure_modes cpu0 { space := updF (updF mem0.space 1024 0x50) 1025 0x01 } screen0
      keys0 0x5001).2.2.1 (by rfl) (by right; left; exact ⟨by rfl, by decide⟩)).1,
   (c2_failure_modes cpuHighPc mem0 screen0 keys0 0).2.1 (by decide)⟩

/-- Memory holding the return opcode 0x00EE at the boot address. -/
def memC2 : Memory := { space := updF mem0.space 1025 0xEE }

/-- Counterexample to C2 as stated: a return-from-subroutine 00EE executed
with an empty call stack panics (the modelled `.expect` crash) instead of
returning a StackUnderflow error result to the caller. -/
theorem c2_counterexample :
    cpu0.run_cycle memC2 screen0 keys0 = Outcome.panicked "00EE: No addresses to pop" ∧
    (cpu0.run_cycle memC2 screen0 keys0).isErr = false := by
  constructor <;> rfl

/-! ### C3: the two-phase blocking key wait -/

/-- `find?` over `range n` returns exactly the first index satisfying the
predicate. -/
theorem find?_range_first (p : Nat → Bool) (n j : Nat) (hj : j < n) (hpj : p j = true)
    (hlt : ∀ i, i < j → p i = false) : (List.range n).find? p = some j := by
  rw [List.find?_eq_some]
  refine ⟨hpj, List.range j, (List.range (n - j - 1)).map (fun k => j + (1 + k)), ?_, ?_⟩
  · conv_lhs => rw [show n = j + (1 + (n - j - 1)) by omega]
    rw [List.range_add, List.range_add]
    simp [List.map_map, Function.comp, List.range_succ, List.range_zero]
    omega
  · intro a ha
    simp only [List.mem_range] at ha
    simp [hlt a ha]

/-- C3: a step executing Fx0A.  Phase A (no pending snapshot) captures the
current 16-key snapshot and leaves pc unchanged net of the universal advance;
any later step whose key state agrees with the snapshot on all 16 indices
again leaves pc unchanged; and the first step on which some index differs
(press or release alike) writes the least differing index into `Vx`, clears
the snapshot, and lets pc advance one word. -/
theorem c3_key_wait (cpu : Cpu) (mem : Memory) (state : Screen) (keys : Nat → Bool)
    (op x : Nat) (hread : mem.read cpu.program_counter = Except.ok op)
    (hpc : cpu.program_counter ≤ 0xFFF)
    (hfn : op >>> 12 = 0xF) (hnn : op &&& 0xFF = 0x0A) (hx : (op &&& 0xF00) >>> 8 = x) :
    (cpu.is_key_pressed_temp = none →
      cpu.run_cycle mem state keys =
        Outcome.ok "Fx0A" { cpu with is_key_pressed_temp := some keys } mem state) ∧
    (∀ og, cpu.is_key_pressed_temp = some og → (∀ i, i < 16 → og i = keys i) →
      cpu.run_cycle mem state keys = Outcome.ok "Fx0A" cpu mem state) ∧
    (∀ og j, cpu.is_key_pressed_temp = some og → j < 16 → og j ≠ keys j →
      (∀ i, i < j → og i = keys i) →
      cpu.run_cycle mem state keys =
        Outcome.ok "Fx0A" { cpu with v := updF cpu.v x j, is_key_pressed_temp := none,
                                     program_counter := cpu.program_counter + 2 } mem state) := by
  have hrc : cpu.run_cycle mem state keys = (cpu.dispatch mem state keys op).advance := by
    unfold Cpu.run_cycle
    rw [hread]
  have hdis : cpu.dispatch mem state keys op =
      Outcome.ok "Fx0A" (cpu.wait_for_keypress x keys) mem state := by
    simp only [Cpu.dispatch, hfn, hnn, hx]
    norm_num
  have harith : ((cpu.program_counter + 65534) % 65536 + 2) % 65536 = cpu.program_counter := by
    omega
  refine ⟨?_, ?_, ?_⟩
  · intro ht
    have hw : cpu.wait_for_keypress x keys =
        { cpu with is_key_pressed_temp := some keys,
                   program_counter := (cpu.program_counter + 65534) % 65536 } := by
      unfold Cpu.wait_for_keypress
      rw [ht]
    rw [hrc, hdis, hw]
    simp [Outcome.advance, harith]
  · intro og ht hsame
    have hfind : (List.range 16).find? (fun idx => og idx != keys idx) = none := by
      rw [List.find?_eq_none]
      intro i hi
      simp only [List.mem_range] at hi
      simp [hsame i hi]
    have hw : cpu.wait_for_keypress x keys =
        { cpu with program_counter := (cpu.program_counter + 65534) % 65536 } := by
      unfold Cpu.wait_for_keypress
      rw [ht]
      dsimp only
      rw [hfind]
    rw [hrc, hdis, hw]
    simp [Outcome.advance, harith]
  · intro og j ht hj hne hbelow
    have hfind : (List.range 16).find? (fun idx => og idx != keys idx) = some j := by
      refine find?_range_first _ 16 j hj (by simp [hne]) ?_
      intro i hi
      simp [hbelow i hi]
    have hw : cpu.wait_for_keypress x keys =
        { cpu with v := updF cpu.v x j, is_key_pressed_temp := none } := by
      unfold Cpu.wait_for_keypress
      rw [ht]
      dsimp only
      rw [hfind]
    rw [hrc, hdis, hw]
    simp only [Outcome.advance]
    norm_num
    omega

/-- Memory holding the key-wait opcode 0xF30A at the boot address. -/
def memW3 : Memory := { space := updF (updF mem0.space 1024 0xF3) 1025 0x0A }

/-- Witness for `c3_key_wait`: phase A at pc 0x200 with no pending snapshot
captures the all-released snapshot and leaves pc at 0x200. -/
theorem c3_key_wait_witness :
    cpu0.run_cycle memW3 screen0 keys0 =
      Outcome.ok "Fx0A" { cpu0 with is_key_pressed_temp := some keys0 } memW3 screen0 :=
  (c3_key_wait cpu0 memW3 screen0 keys0 0xF30A 3 (by rfl) (by decide) (by rfl) (by rfl)
    (by rfl)).1 rfl

/-! ### C7: block store / block load -/

/-- The Fx55 write loop stores `v k` at backing index `(i + k) % 65536` for
every `k ≤ x` (the loop addresses are distinct mod 2^16 while `x < 2^16`). -/
theorem store_fold_at (i : Nat) (v : Nat → Nat) :
    ∀ (x : Nat) (sp : Nat → Nat) (k : Nat), x < 65536 → k ≤ x →
      ((List.range (x + 1)).foldl (fun sp reg => updF sp ((i + reg) % 65536) (v reg)) sp)
        ((i + k) % 65536) = v k := by
  intro x
  induction x with
  | zero =>
    intro sp k _ hk
    interval_cases k
    simp [List.range_succ, updF_same]
  | succ n ih =>
    intro sp k hx hk
    rw [List.range_succ, List.foldl_append]
    simp only [List.foldl_cons, List.foldl_nil]
    rcases Nat.lt_or_ge k (n + 1) with hlt | hge
    · rw [updF_other _ _ _ _ (by omega)]
      exact ih sp k (by omega) (by omega)
    · have hke : k = n + 1 := by omega
      subst hke
      exact updF_same _ _ _

/-- The Fx55 write loop leaves every backing index outside the written block
unchanged. -/
theorem store_fold_frame (i : Nat) (v : Nat → Nat) :
    ∀ (x : Nat) (sp : Nat → Nat) (j : Nat), (∀ k, k ≤ x → j ≠ (i + k) % 65536) →
      ((List.range (x + 1)).foldl (fun sp reg => updF sp ((i + reg) % 65536) (v reg)) sp) j
        = sp j := by
  intro x
  induction x with
  | zero =>
    intro sp j hj
    have h0 : j ≠ i % 65536 := by simpa using hj 0 (Nat.le_refl 0)
    simp [List.range_succ, updF_other _ _ _ _ h0]
  | succ n ih =>
    intro sp j hj
    rw [List.range_succ, List.foldl_append]
    simp only [List.foldl_cons, List.foldl_nil]
    rw [updF_other _ _ _ _ (hj (n + 1) (Nat.le_refl _))]
    exact ih sp j (fun k hk => hj k (by omega))

/-- The Fx65 read loop fills `v k` from backing index `(i + k) % 65536` for
every `k ≤ x`. -/
theorem load_fold_at (i : Nat) (sp : Nat → Nat) :
    ∀ (x : Nat) (vv : Nat → Nat) (k : Nat), k ≤ x →
      ((List.range (x + 1)).foldl (fun vv reg => updF vv reg (sp ((i + reg) % 65536))) vv) k
        = sp ((i + k) % 65536) := by
  intro x
  induction x with
  | zero =>
    intro vv k hk
    interval_cases k
    simp [List.range_succ, updF_same]
  | succ n ih =>
    intro vv k hk
    rw [List.range_succ, List.foldl_append]
    simp only [List.foldl_cons, List.foldl_nil]
    rcases Nat.lt_or_ge k (n + 1) with hlt | hge
    · rw [updF_other _ _ _ _ (by omega)]
      exact ih vv k (by omega)
    · have hke : k = n + 1 := by omega
      subst hke
      exact updF_same _ _ _

/-- The Fx65 read loop leaves the registers above `x` unchanged. -/
theorem load_fold_frame (i : Nat) (sp : Nat → Nat) :
    ∀ (x : Nat) (vv : Nat → Nat) (k : Nat), x < k →
      ((List.range (x + 1)).foldl (fun vv reg => updF vv reg (sp ((i + reg) % 65536))) vv) k
        = vv k := by
  intro x
  induction x with
  | zero =>
    intro vv k hk
    simp [List.range_succ, updF_other _ _ _ _ (by omega : k ≠ 0)]
  | succ n ih =>
    intro vv k hk
    rw [List.range_succ, List.foldl_append]
    simp only [List.foldl_cons, List.foldl_nil]
    rw [updF_other _ _ _ _ (by omega)]
    exact ih vv k (by omega)

/-- When every touched backing index is in range, Fx65 succeeds and fills
`V0..Vx` from the cells at `I..I+x`, leaves the higher registers unchanged,
and advances `I` by `x + 1` exactly when the quirk is unset. -/
theorem load_regs_char (c : Cpu) (x : Nat) (m : Memory)
    (hg : ∀ reg ≤ x, (c.i + reg) % 65536 < 8192) :
    ∃ c2, c.load_regs x m = some c2 ∧
      (∀ k, k ≤ x → c2.v k = m.space ((c.i + k) % 65536)) ∧
      (∀ k, x < k → c2.v k = c.v k) ∧
      c2.i = (if c.store_load_quirk then c.i else (c.i + x + 1) % 65536) := by
  cases hq : c.store_load_quirk
  · refine ⟨{ c with
        v := (List.range (x + 1)).foldl
          (fun vv reg => updF vv reg (m.space ((c.i + reg) % 65536))) c.v,
        i := (c.i + x + 1) % 65536 }, ?_, ?_, ?_, ?_⟩
    · simp only [Cpu.load_regs]
      rw [if_pos hg, hq]
      simp
    · intro k hk
      exact load_fold_at c.i m.space x c.v k hk
    · intro k hk
      exact load_fold_frame c.i m.space x c.v k hk
    · simp [hq]
  · refine ⟨{ c with
        v := (List.range (x + 1)).foldl
          (fun vv reg => updF vv reg (m.space ((c.i + reg) % 65536))) c.v }, ?_, ?_, ?_, ?_⟩
    · simp only [Cpu.load_regs]
      rw [if_pos hg, hq]
      simp
    · intro k hk
      exact load_fold_at c.i m.space x c.v k hk
    · intro k hk
      exact load_fold_frame c.i m.space x c.v k hk
    · simp [hq]

/-- C7 (amended): provided every touched backing index `(I + k) mod 2^16`
for `k ≤ x` lies inside the 8192-byte array — otherwise the raw array access
panics instead of copying — Fx55 succeeds, copies `V0..Vx` into the cells
for word addresses `I..I+x`, leaves every other cell unchanged, and advances
`I` by `x + 1` exactly when `store_load_quirk` is unset; Fx65 likewise
succeeds, copies those cells into `V0..Vx` and leaves the higher registers
unchanged; and a block-store followed by a block-load with the same `x` and
the same `I` (under the same quirk setting) restores `V0..Vx`. -/
theorem c7_block_store_load (cpu : Cpu) (x : Nat) (mem : Memory) (hx : x < 16)
    (hib : ∀ k, k ≤ x → (cpu.i + k) % 65536 < 8192) :
    (∃ c' m', cpu.store_regs x mem = some (c', m') ∧
      (∀ k, k ≤ x → m'.space ((cpu.i + k) % 65536) = cpu.v k) ∧
      (∀ j, (∀ k, k ≤ x → j ≠ (cpu.i + k) % 65536) → m'.space j = mem.space j) ∧
      (c'.i = if cpu.store_load_quirk then cpu.i else (cpu.i + x + 1) % 65536) ∧
      (∃ c2, Cpu.load_regs { c' with i := cpu.i } x m' = some c2 ∧
        ∀ k, k ≤ x → c2.v k = cpu.v k)) ∧
    (∃ c3, cpu.load_regs x mem = some c3 ∧
      (∀ k, k ≤ x → c3.v k = mem.space ((cpu.i + k) % 65536)) ∧
      (∀ k, x < k → c3.v k = cpu.v k) ∧
      (c3.i = if cpu.store_load_quirk then cpu.i else (cpu.i + x + 1) % 65536)) := by
  have hguard : ∀ reg ≤ x, (cpu.i + reg) % 65536 < 8192 := fun reg hreg => hib reg hreg
  constructor
  · have hstore : cpu.store_regs x mem = some
        ((if cpu.store_load_quirk then cpu else { cpu with i := (cpu.i + x + 1) % 65536 }),
         { space := (List.range (x + 1)).foldl
            (fun sp reg => updF sp ((cpu.i + reg) % 65536) (cpu.v reg)) mem.space }) := by
      simp only [Cpu.store_regs]
      rw [if_pos hguard]
    refine ⟨_, _, hstore, ?_, ?_, ?_, ?_⟩
    · intro k hk
      exact store_fold_at cpu.i cpu.v x mem.space k (by omega) hk
    · intro j hj
      exact store_fold_frame cpu.i cpu.v x mem.space j hj
    · cases hq : cpu.store_load_quirk <;> simp [hq]
    · obtain ⟨c2, hl, hat, hfr, hi2⟩ := load_regs_char
        { (if cpu.store_load_quirk then cpu
            else { cpu with i := (cpu.i + x + 1) % 65536 }) with i := cpu.i } x
        { space := (List.range (x + 1)).foldl
            (fun sp reg => updF sp ((cpu.i + reg) % 65536) (cpu.v reg)) mem.space }
        hguard
      refine ⟨c2, hl, ?_⟩
      intro k hk
      rw [hat k hk]
      exact store_fold_at cpu.i cpu.v x mem.space k (by omega) hk
  · obtain ⟨c3, hl, hat, hfr, hi3⟩ := load_regs_char cpu x mem hguard
    exact ⟨c3, hl, hat, hfr, hi3⟩

/-- Machine state with pairwise distinct low registers and `I = 0x300`. -/
def cpuW7 : Cpu := { cpu0 with v := fun j => if j < 16 then 100 + j else 0, i := 0x300 }

/-- The (successful) block store of `V0..V3` at `I = 0x300`. -/
def storeW7 : Cpu × Memory := (cpuW7.store_regs 3 mem0).getD (cpuW7, mem0)

/-- The (successful) block load back with the same `I`. -/
def loadW7 : Cpu := (Cpu.load_regs { storeW7.1 with i := cpuW7.i } 3 storeW7.2).getD cpuW7

/-- Witness for `c7_block_store_load`: storing `V0..V3` at `I = 0x300` and
loading them back with the same `I` stores `V2 = 102` at cell `I + 2` and
restores it. -/
theorem c7_block_store_load_witness :
    cpuW7.store_regs 3 mem0 = some storeW7 ∧
    storeW7.2.space ((cpuW7.i + 2) % 65536) = cpuW7.v 2 ∧
    Cpu.load_regs { storeW7.1 with i := cpuW7.i } 3 storeW7.2 = some loadW7 ∧
    loadW7.v 2 = cpuW7.v 2 := by
  obtain ⟨⟨c', m', hs, hat, _, _, c2, hl2, hrt⟩, _⟩ :=
    c7_block_store_load cpuW7 3 mem0 (by decide)
      (fun k hk => by interval_cases k <;> decide)
  have e1 : storeW7 = (c', m') := by
    unfold storeW7
    rw [hs]
    rfl
  have e2 : loadW7 = c2 := by
    unfold loadW7
    rw [e1]
    dsimp only
    rw [hl2]
    rfl
  refine ⟨?_, ?_, ?_, ?_⟩
  · rw [e1]
    exact hs
  · rw [e1]
    exact hat 2 (by decide)
  · rw [e1, e2]
    dsimp only
    exact hl2
  · rw [e2]
    exact hrt 2 (by decide)

/-- Machine state whose address register points one past the backing array. -/
def cpuC7 : Cpu := { cpu0 with i := 8192 }

/-- Counterexample to C7 as stated: with `I = 8192` (reachable via Annn and
repeated Fx1E) both the block store and the block load panic on the raw
array index instead of copying any register, so the claim's "for every
address register value I" fails. -/
theorem c7_counterexample :
    cpuC7.store_regs 0 mem0 = none ∧ Cpu.load_regs cpuC7 0 mem0 = none := by
  constructor
  · simp only [Cpu.store_regs]
    rw [if_neg (by decide)]
  · simp only [Cpu.load_regs]
    rw [if_neg (by decide)]

/-! ### C4: the sprite XOR blit -/

/-- Wrapped destination column of sprite column `c` (u8 add, then `% 64`). -/
def cellCol (vx c : Nat) : Nat := ((c + vx) % 256) % 64

/-- Wrapped destination row of sprite row `r` (u8 add, then `% 32`). -/
def cellRow (vy r : Nat) : Nat := ((vy + r) % 256) % 32

/-- The sprite bit blitted by cell `(r, c)`: bit `7 - c` of the sprite byte
read at `I + r`. -/
def cellBit (i : Nat) (space : Nat → Nat) (r c : Nat) : Nat :=
  (space ((i + r) % 65536) >>> (7 - c)) &&& 1

/-- One blit cell of Dxyn specialised to fixed register values `vx`, `vy`
(the behaviour of `drawCellF` whenever neither source register is VF);
state is `(screen, collision flag)`. -/
def coreCell (vx vy i : Nat) (space : Nat → Nat) (acc : Screen × Nat) (rc : Nat × Nat) :
    Screen × Nat :=
  let bit := cellBit i space rc.1 rc.2
  let sb : Nat := if acc.1 (cellCol vx rc.2) (cellRow vy rc.1) then 1 else 0
  (setPix acc.1 (cellCol vx rc.2) (cellRow vy rc.1) (decide (bit ^^^ sb > 0)),
   if bit &&& sb > 0 then 1 else acc.2)

/-- Row-major enumeration of the `n × 8` blit cells of Dxyn. -/
def spriteCells (n : Nat) : List (Nat × Nat) :=
  (List.range n).flatMap (fun r => (List.range 8).map (fun c => (r, c)))

/-- Dxyn specialised to fixed register values: returns the final screen and
the collision flag accumulated from 0. -/
def drawCore (vx vy i n : Nat) (space : Nat → Nat) (s : Screen) : Screen × Nat :=
  (spriteCells n).foldl (coreCell vx vy i space) (s, 0)

theorem updF_updF_same (f : Nat → Nat) (k a b : Nat) : updF (updF f k a) k b = updF f k b := by
  funext j
  by_cases h : j = k <;> simp [updF, h]

/-- One faithful blit cell agrees with the specialised cell when neither
source register is VF: the register file stays `updF v 15 t`. -/
theorem drawCellF_core (x y i : Nat) (space : Nat → Nat) (v : Nat → Nat)
    (hx : x ≠ 15) (r c t : Nat) (s : Screen) :
    drawCellF x ((v y + r) % 256) (space ((i + r) % 65536)) (updF v 15 t, s) c =
      (updF v 15 ((coreCell (v x) (v y) i space (s, t) (r, c)).2),
       (coreCell (v x) (v y) i space (s, t) (r, c)).1) := by
  have hvx : updF v 15 t x = v x := updF_other _ _ _ _ hx
  simp only [drawCellF, coreCell, cellCol, cellRow, cellBit, hvx]
  split <;> (simp [updF_updF_same]; try (split <;> rfl))

/-- The eight columns of one faithful row agree with the specialised cells of
that row. -/
theorem drawRow_core (x y i : Nat) (space : Nat → Nat) (v : Nat → Nat)
    (hx : x ≠ 15) (r : Nat) :
    ∀ (cols : List Nat) (t : Nat) (s : Screen),
      cols.foldl (drawCellF x ((v y + r) % 256) (space ((i + r) % 65536))) (updF v 15 t, s)
        = (updF v 15
            (((cols.map (fun c => (r, c))).foldl (coreCell (v x) (v y) i space) (s, t)).2),
           ((cols.map (fun c => (r, c))).foldl (coreCell (v x) (v y) i space) (s, t)).1) := by
  intro cols
  induction cols with
  | nil => intro t s; rfl
  | cons c cols ih =>
    intro t s
    rw [List.foldl_cons, List.map_cons, List.foldl_cons,
      drawCellF_core x y i space v hx r c t s]
    exact ih _ _

/-- The faithful nested Dxyn loop agrees with the specialised flat fold over
`spriteCells` when neither source register is VF. -/
theorem drawRows_core (x y i : Nat) (space : Nat → Nat) (v : Nat → Nat)
    (hx : x ≠ 15) (hy : y ≠ 15) :
    ∀ (rows : List Nat) (t : Nat) (s : Screen),
      rows.foldl (drawRowF x y i space) (updF v 15 t, s)
        = (updF v 15
            (((rows.flatMap (fun r => (List.range 8).map (fun c => (r, c)))).foldl
              (coreCell (v x) (v y) i space) (s, t)).2),
           ((rows.flatMap (fun r => (List.range 8).map (fun c => (r, c)))).foldl
              (coreCell (v x) (v y) i space) (s, t)).1) := by
  intro rows
  induction rows with
  | nil => intro t s; rfl
  | cons r rows ih =>
    intro t s
    rw [List.foldl_cons, List.flatMap_cons, List.foldl_append]
    have hrow : drawRowF x y i space (updF v 15 t, s) r =
        (updF v 15
          (((List.range 8).map (fun c => (r, c))).foldl (coreCell (v x) (v y) i space) (s, t)).2,
         (((List.range 8).map (fun c => (r, c))).foldl (coreCell (v x) (v y) i space) (s, t)).1)
        := by
      unfold drawRowF
      dsimp only
      have hvy : (updF v 15 t) y = v y := updF_other _ _ _ _ hy
      rw [hvy]
      exact drawRow_core x y i space v hx r (List.range 8) t s
    rw [hrow]
    exact ih _ _

/-- Bridge: for destination and row selectors other than VF, with every
sprite-row read in bounds, the faithful `draw_sprite` succeeds and is the
specialised core draw, with the collision flag written into `v[0xF]`. -/
theorem draw_sprite_core (cpu : Cpu) (x y n : Nat) (space : Nat → Nat) (state : Screen)
    (hx : x ≠ 15) (hy : y ≠ 15) (hb : ∀ r ∈ List.range n, (cpu.i + r) % 65536 < 8192) :
    cpu.draw_sprite x y n space state =
      some (updF cpu.v 15 ((drawCore (cpu.v x) (cpu.v y) cpu.i n space state).2),
        (drawCore (cpu.v x) (cpu.v y) cpu.i n space state).1) := by
  unfold Cpu.draw_sprite drawCore spriteCells
  rw [if_pos hb]
  exact congrArg some (drawRows_core x y cpu.i space cpu.v hx hy (List.range n) 0 state)

/-- Destination pixel of a blit cell. -/
def tgt (vx vy : Nat) (rc : Nat × Nat) : Nat × Nat := (cellCol vx rc.2, cellRow vy rc.1)

/-- XOR mask accumulated at pixel `p` by a list of blit cells; it depends
only on the sprite data and coordinates, never on the screen. -/
def maskF (vx vy i : Nat) (space : Nat → Nat) (L : List (Nat × Nat)) (p : Nat × Nat) : Bool :=
  L.foldl (fun b rc => if tgt vx vy rc = p
    then b ^^ decide (cellBit i space rc.1 rc.2 = 1) else b) false

theorem cellBit_le_one (i : Nat) (space : Nat → Nat) (r c : Nat) : cellBit i space r c ≤ 1 := by
  unfold cellBit
  rw [Nat.and_one_is_mod]
  omega

theorem setPix_apply (s : Screen) (cx cy : Nat) (b : Bool) (u w : Nat) :
    setPix s cx cy b u w = if (cx, cy) = (u, w) then b else s u w := by
  by_cases h1 : u = cx
  · subst h1
    by_cases h2 : w = cy
    · subst h2
      simp [setPix]
    · simp [setPix, h2, Ne.symm h2]
  · simp [setPix, h1, Ne.symm h1]

theorem decide_xor_bit (b : Nat) (hb : b ≤ 1) (o : Bool) :
    decide (b ^^^ (if o then 1 else 0) > 0) = ((decide (b = 1)) ^^ o) := by
  interval_cases b <;> cases o <;> rfl

theorem and_bit_pos (b : Nat) (hb : b ≤ 1) (o : Bool) :
    (b &&& (if o then 1 else 0) > 0) ↔ (b = 1 ∧ o = true) := by
  interval_cases b <;> cases o <;> decide

/-- A fold whose step is pointwise-XOR-linear in the accumulator is
XOR-linear in its initial value. -/
theorem foldl_xor_init {α : Type} (f : Bool → α → Bool)
    (hf : ∀ b a, f b a = (b ^^ f false a)) :
    ∀ (L : List α) (b : Bool), L.foldl f b = (b ^^ L.foldl f false) := by
  intro L
  induction L with
  | nil => intro b; simp
  | cons a L ih =>
    intro b
    rw [List.foldl_cons, List.foldl_cons, ih (f b a), ih (f false a), hf b a, Bool.xor_assoc]

theorem maskF_cons (vx vy i : Nat) (space : Nat → Nat) (rc : Nat × Nat)
    (L : List (Nat × Nat)) (p : Nat × Nat) :
    maskF vx vy i space (rc :: L) p
      = ((if tgt vx vy rc = p then decide (cellBit i space rc.1 rc.2 = 1) else false)
        ^^ maskF vx vy i space L p) := by
  unfold maskF
  rw [List.foldl_cons, foldl_xor_init _ (by intro b a; split <;> simp) L]
  congr 1
  split <;> simp

/-- Pointwise characterization of the blit: the screen after a list of cells
is the initial screen XORed with the cell mask; the mask is independent of
both the initial screen and the collision flag. -/
theorem core_screen_char (vx vy i : Nat) (space : Nat → Nat) :
    ∀ (L : List (Nat × Nat)) (acc : Screen × Nat) (p : Nat × Nat),
      ((L.foldl (coreCell vx vy i space) acc).1) p.1 p.2
        = ((acc.1 p.1 p.2) ^^ maskF vx vy i space L p) := by
  intro L
  induction L with
  | nil =>
    intro acc p
    simp [maskF]
  | cons rc L ih =>
    intro acc p
    rw [List.foldl_cons, ih, maskF_cons]
    have hcell : (coreCell vx vy i space acc rc).1 p.1 p.2
        = ((acc.1 p.1 p.2) ^^ (if tgt vx vy rc = p
            then decide (cellBit i space rc.1 rc.2 = 1) else false)) := by
      simp only [coreCell]
      rw [setPix_apply]
      by_cases hp : tgt vx vy rc = p
      · have hpc : cellCol vx rc.2 = p.1 := by rw [← hp]; rfl
        have hpr : cellRow vy rc.1 = p.2 := by rw [← hp]; rfl
        rw [show ((cellCol vx rc.2, cellRow vy rc.1) : Nat × Nat) = (p.1, p.2) by
              rw [hpc, hpr],
            if_pos rfl, if_pos hp, hpc, hpr,
            decide_xor_bit _ (cellBit_le_one i space rc.1 rc.2) (acc.1 p.1 p.2)]
        exact Bool.xor_comm _ _
      · have hpd : ((cellCol vx rc.2, cellRow vy rc.1) : Nat × Nat) ≠ (p.1, p.2) := by
          intro h
          exact hp h
        rw [if_neg hpd, if_neg hp, Bool.xor_false]
    rw [hcell, Bool.xor_assoc]

/-- Once the collision flag is 1 it stays 1 for the rest of the blit. -/
theorem core_vf_one (vx vy i : Nat) (space : Nat → Nat) :
    ∀ (L : List (Nat × Nat)) (acc : Screen × Nat), acc.2 = 1 →
      ((L.foldl (coreCell vx vy i space) acc).2) = 1 := by
  intro L
  induction L with
  | nil => intro acc h; exact h
  | cons rc L ih =>
    intro acc h
    rw [List.foldl_cons]
    apply ih
    simp only [coreCell]
    split <;> simp [h]

/-- With pairwise-distinct targets all initially unset, no collision occurs:
the flag comes out as it went in. -/
theorem core_vf_untouched (vx vy i : Nat) (space : Nat → Nat) :
    ∀ (L : List (Nat × Nat)) (acc : Screen × Nat),
      List.Pairwise (fun a b => tgt vx vy a ≠ tgt vx vy b) L →
      (∀ rc ∈ L, acc.1 (tgt vx vy rc).1 (tgt vx vy rc).2 = false) →
      ((L.foldl (coreCell vx vy i space) acc).2) = acc.2 := by
  intro L
  induction L with
  | nil => intro acc _ _; rfl
  | cons rc L ih =>
    intro acc hp hempty
    obtain ⟨hhead, hpL⟩ := List.pairwise_cons.mp hp
    have hsb : acc.1 (cellCol vx rc.2) (cellRow vy rc.1) = false :=
      hempty rc (List.mem_cons_self rc L)
    rw [List.foldl_cons]
    have hcell2 : (coreCell vx vy i space acc rc).2 = acc.2 := by
      simp [coreCell, hsb]
    rw [ih (coreCell vx vy i space acc rc) hpL ?_, hcell2]
    intro rc' hrc'
    simp only [coreCell]
    rw [setPix_apply]
    rw [if_neg ?_]
    · exact hempty rc' (List.mem_cons_of_mem rc hrc')
    · intro h
      exact hhead rc' hrc' h
  -- the setPix target is the head's target, distinct from every tail target

/-- If some cell with a set sprite bit meets an already-set pixel (and the
targets are pairwise distinct so earlier cells cannot clear it first), the
collision flag ends at 1. -/
theorem core_vf_hit (vx vy i : Nat) (space : Nat → Nat) :
    ∀ (L : List (Nat × Nat)) (acc : Screen × Nat) (rc₀ : Nat × Nat), rc₀ ∈ L →
      List.Pairwise (fun a b => tgt vx vy a ≠ tgt vx vy b) L →
      cellBit i space rc₀.1 rc₀.2 = 1 →
      acc.1 (tgt vx vy rc₀).1 (tgt vx vy rc₀).2 = true →
      ((L.foldl (coreCell vx vy i space) acc).2) = 1 := by
  intro L
  induction L with
  | nil => intro acc rc₀ h; cases h
  | cons rc L ih =>
    intro acc rc₀ hmem hp hbit hset
    obtain ⟨hhead, hpL⟩ := List.pairwise_cons.mp hp
    rw [List.foldl_cons]
    rcases List.mem_cons.mp hmem with heq | htail
    · subst heq
      apply core_vf_one
      simp only [coreCell]
      have hcond : cellBit i space rc₀.1 rc₀.2 &&&
          (if acc.1 (cellCol vx rc₀.2) (cellRow vy rc₀.1) then 1 else 0) > 0 :=
        (and_bit_pos _ (cellBit_le_one i space rc₀.1 rc₀.2) _).mpr ⟨hbit, hset⟩
      rw [if_pos hcond]
    · apply ih _ rc₀ htail hpL hbit
      simp only [coreCell]
      rw [setPix_apply, if_neg ?_]
      · exact hset
      · intro h
        exact hhead rc₀ htail h

/-- A list of cells none of which target `p` contributes no mask at `p`. -/
theorem maskF_none (vx vy i : Nat) (space : Nat → Nat) :
    ∀ (L : List (Nat × Nat)) (p : Nat × Nat), (∀ rc ∈ L, tgt vx vy rc ≠ p) →
      maskF vx vy i space L p = false := by
  intro L
  induction L with
  | nil => intro p _; rfl
  | cons rc L ih =>
    intro p h
    rw [maskF_cons, if_neg (h rc (List.mem_cons_self rc L)), Bool.false_xor]
    exact ih p (fun rc' hrc' => h rc' (List.mem_cons_of_mem rc hrc'))

/-- With pairwise-distinct targets, the mask at the target of a member cell
is exactly that cell's sprite bit. -/
theorem maskF_single (vx vy i : Nat) (space : Nat → Nat) :
    ∀ (L : List (Nat × Nat)) (p : Nat × Nat) (rc₀ : Nat × Nat), rc₀ ∈ L →
      List.Pairwise (fun a b => tgt vx vy a ≠ tgt vx vy b) L →
      tgt vx vy rc₀ = p →
      maskF vx vy i space L p = decide (cellBit i space rc₀.1 rc₀.2 = 1) := by
  intro L
  induction L with
  | nil => intro p rc₀ h; cases h
  | cons rc L ih =>
    intro p rc₀ hmem hp htgt
    obtain ⟨hhead, hpL⟩ := List.pairwise_cons.mp hp
    rcases List.mem_cons.mp hmem with heq | htail
    · subst heq
      rw [maskF_cons, if_pos htgt,
        maskF_none vx vy i space L p ?_, Bool.xor_false]
      intro rc' hrc' h
      exact hhead rc' hrc' (by rw [htgt, ← h])
    · rw [maskF_cons, if_neg ?_, Bool.false_xor]
      · exact ih p rc₀ htail hpL htgt
      · intro h
        exact hhead rc₀ htail (by rw [htgt, ← h])

/-- The nested Dxyn loop enumerates the same cells as a flat row-major map. -/
theorem spriteCells_eq_map (n : Nat) :
    spriteCells n = (List.range (8 * n)).map (fun k => (k / 8, k % 8)) := by
  induction n with
  | zero => rfl
  | succ n ih =>
    have h1 : spriteCells (n + 1)
        = spriteCells n ++ (List.range 8).map (fun c => (n, c)) := by
      unfold spriteCells
      rw [List.range_succ, List.flatMap_append]
      simp
    have h2 : (List.range (8 * (n + 1))).map (fun k => (k / 8, k % 8))
        = (List.range (8 * n)).map (fun k => (k / 8, k % 8))
          ++ (List.range 8).map (fun c => (n, c)) := by
      rw [show 8 * (n + 1) = 8 * n + 8 by ring, List.range_add, List.map_append, List.map_map]
      congr 1
      apply List.map_congr_left
      intro c hc
      simp only [List.mem_range] at hc
      simp only [Function.comp_apply]
      rw [Prod.mk.injEq]
      constructor <;> omega
    rw [h1, ih, h2]

theorem mem_spriteCells (n : Nat) (rc : Nat × Nat) :
    rc ∈ spriteCells n ↔ rc.1 < n ∧ rc.2 < 8 := by
  unfold spriteCells
  simp only [List.mem_flatMap, List.mem_map, List.mem_range]
  constructor
  · rintro ⟨r, hr, c, hc, rfl⟩
    exact ⟨hr, hc⟩
  · rintro ⟨h1, h2⟩
    exact ⟨rc.1, h1, rc.2, h2, rfl⟩

/-- For `n ≤ 32` the `n × 8` blit cells hit pairwise-distinct pixels: rows
differ mod 32 and columns differ mod 64. -/
theorem pairwise_spriteCells (vx vy n : Nat) (hn : n ≤ 32) :
    List.Pairwise (fun a b => tgt vx vy a ≠ tgt vx vy b) (spriteCells n) := by
  rw [spriteCells_eq_map, List.pairwise_map, List.pairwise_iff_getElem]
  intro a b ha hb hab
  simp only [List.getElem_range]
  simp only [List.length_range] at ha hb
  intro heq
  unfold tgt cellCol cellRow at heq
  rw [Prod.mk.injEq] at heq
  obtain ⟨hcol, hrow⟩ := heq
  simp only at hcol hrow
  rw [Nat.mod_mod_of_dvd _ (by norm_num : (64:ℕ) ∣ 256),
    Nat.mod_mod_of_dvd _ (by norm_num : (64:ℕ) ∣ 256)] at hcol
  rw [Nat.mod_mod_of_dvd _ (by norm_num : (32:ℕ) ∣ 256),
    Nat.mod_mod_of_dvd _ (by norm_num : (32:ℕ) ∣ 256)] at hrow
  omega

/-- C4 (amended): for destination selectors `x, y ≠ 0xF` (when either is VF
the in-flight flag writes perturb the coordinates), with the `n` sprite-row
reads `I..I+n-1` inside the 8192-byte backing array (otherwise the raw read
panics mid-instruction), drawing the identical sprite twice — same `Vx`,
`Vy`, `n` (a 4-bit operand), `I`, and unchanged sprite memory — succeeds and
restores the framebuffer to its pre-draw state; the draw touches no register
but VF; a first draw over a region whose overlapped pixels are all unset
reports VF = 0; and the identical second draw reports VF = 1 provided at
least one sprite bit among the `n` rows is set (with an all-zero sprite, or
`n = 0`, both draws report VF = 0). -/
theorem c4_draw_xor (cpu : Cpu) (x y n : Nat) (space : Nat → Nat) (state : Screen)
    (hx : x ≠ 15) (hy : y ≠ 15) (hn : n ≤ 15) (hi : cpu.i + n ≤ 8192) :
    ∃ p1 p2 : (Nat → Nat) × Screen,
      cpu.draw_sprite x y n space state = some p1 ∧
      Cpu.draw_sprite { cpu with v := p1.1 } x y n space p1.2 = some p2 ∧
      p2.2 = state ∧
      (∀ k, k ≠ 15 → p1.1 k = cpu.v k) ∧
      ((∀ r c, r < n → c < 8 →
          state (cellCol (cpu.v x) c) (cellRow (cpu.v y) r) = false) →
        p1.1 15 = 0) ∧
      ((∀ r c, r < n → c < 8 →
          state (cellCol (cpu.v x) c) (cellRow (cpu.v y) r) = false) →
        (∃ r c, r < n ∧ c < 8 ∧ cellBit cpu.i space r c = 1) →
        p2.1 15 = 1) := by
  have hpair := pairwise_spriteCells (cpu.v x) (cpu.v y) n (by omega)
  have hb : ∀ r ∈ List.range n, (cpu.i + r) % 65536 < 8192 := by
    intro r hr
    have := List.mem_range.mp hr
    omega
  have hb1 := draw_sprite_core cpu x y n space state hx hy hb
  have hb2 := draw_sprite_core
    { cpu with v := updF cpu.v 15 ((drawCore (cpu.v x) (cpu.v y) cpu.i n space state).2) }
    x y n space (drawCore (cpu.v x) (cpu.v y) cpu.i n space state).1 hx hy hb
  have hvx2 : ({ cpu with
      v := updF cpu.v 15 ((drawCore (cpu.v x) (cpu.v y) cpu.i n space state).2) } : Cpu).v x
      = cpu.v x := updF_other _ _ _ _ hx
  have hvy2 : ({ cpu with
      v := updF cpu.v 15 ((drawCore (cpu.v x) (cpu.v y) cpu.i n space state).2) } : Cpu).v y
      = cpu.v y := updF_other _ _ _ _ hy
  have hi2 : ({ cpu with
      v := updF cpu.v 15 ((drawCore (cpu.v x) (cpu.v y) cpu.i n space state).2) } : Cpu).i
      = cpu.i := rfl
  have hv2 : ({ cpu with
      v := updF cpu.v 15 ((drawCore (cpu.v x) (cpu.v y) cpu.i n space state).2) } : Cpu).v
      = updF cpu.v 15 ((drawCore (cpu.v x) (cpu.v y) cpu.i n space state).2) := rfl
  rw [hvx2, hvy2, hi2, hv2] at hb2
  have hempty' : (∀ r c, r < n → c < 8 →
      state (cellCol (cpu.v x) c) (cellRow (cpu.v y) r) = false) →
      ∀ rc ∈ spriteCells n,
        state (tgt (cpu.v x) (cpu.v y) rc).1 (tgt (cpu.v x) (cpu.v y) rc).2 = false := by
    intro hempty rc hrc
    obtain ⟨h1, h2⟩ := (mem_spriteCells n rc).mp hrc
    exact hempty rc.1 rc.2 h1 h2
  refine ⟨(updF cpu.v 15 ((drawCore (cpu.v x) (cpu.v y) cpu.i n space state).2),
        (drawCore (cpu.v x) (cpu.v y) cpu.i n space state).1),
      (updF (updF cpu.v 15 ((drawCore (cpu.v x) (cpu.v y) cpu.i n space state).2)) 15
        ((drawCore (cpu.v x) (cpu.v y) cpu.i n space
          ((drawCore (cpu.v x) (cpu.v y) cpu.i n space state).1)).2),
        (drawCore (cpu.v x) (cpu.v y) cpu.i n space
          ((drawCore (cpu.v x) (cpu.v y) cpu.i n space state).1)).1),
      hb1, hb2, ?_, ?_, ?_, ?_⟩
  · show (drawCore (cpu.v x) (cpu.v y) cpu.i n space
        ((drawCore (cpu.v x) (cpu.v y) cpu.i n space state).1)).1 = state
    funext u w
    have h1 := core_screen_char (cpu.v x) (cpu.v y) cpu.i space (spriteCells n)
      (state, 0) (u, w)
    have h2 := core_screen_char (cpu.v x) (cpu.v y) cpu.i space (spriteCells n)
      (((spriteCells n).foldl (coreCell (cpu.v x) (cpu.v y) cpu.i space) (state, 0)).1, 0)
      (u, w)
    dsimp only at h1 h2
    show ((spriteCells n).foldl (coreCell (cpu.v x) (cpu.v y) cpu.i space)
        (((spriteCells n).foldl (coreCell (cpu.v x) (cpu.v y) cpu.i space) (state, 0)).1,
          0)).1 u w = state u w
    rw [h2, h1, Bool.xor_assoc, Bool.xor_self, Bool.xor_false]
  · intro k hk
    exact updF_other _ _ _ _ hk
  · intro hempty
    show updF cpu.v 15 ((drawCore (cpu.v x) (cpu.v y) cpu.i n space state).2) 15 = 0
    rw [updF_same]
    exact core_vf_untouched (cpu.v x) (cpu.v y) cpu.i space (spriteCells n) (state, 0)
      hpair (hempty' hempty)
  · intro hempty hbit
    obtain ⟨r, c, hr, hc, hbit1⟩ := hbit
    show updF (updF cpu.v 15 ((drawCore (cpu.v x) (cpu.v y) cpu.i n space state).2)) 15
        ((drawCore (cpu.v x) (cpu.v y) cpu.i n space
          ((drawCore (cpu.v x) (cpu.v y) cpu.i n space state).1)).2) 15 = 1
    rw [updF_same]
    have hmem : ((r, c) : Nat × Nat) ∈ spriteCells n := (mem_spriteCells n (r, c)).mpr ⟨hr, hc⟩
    have hchar := core_screen_char (cpu.v x) (cpu.v y) cpu.i space (spriteCells n)
      (state, 0) (tgt (cpu.v x) (cpu.v y) (r, c))
    dsimp only at hchar
    have hmask := maskF_single (cpu.v x) (cpu.v y) cpu.i space (spriteCells n)
      (tgt (cpu.v x) (cpu.v y) (r, c)) (r, c) hmem hpair rfl
    have hstate0 : state (tgt (cpu.v x) (cpu.v y) (r, c)).1
        (tgt (cpu.v x) (cpu.v y) (r, c)).2 = false := hempty r c hr hc
    have hset : ((spriteCells n).foldl (coreCell (cpu.v x) (cpu.v y) cpu.i space)
        (state, 0)).1 (tgt (cpu.v x) (cpu.v y) (r, c)).1
        (tgt (cpu.v x) (cpu.v y) (r, c)).2 = true := by
      rw [hchar, hmask, hstate0, hbit1]
      rfl
    exact core_vf_hit (cpu.v x) (cpu.v y) cpu.i space (spriteCells n)
      (((spriteCells n).foldl (coreCell (cpu.v x) (cpu.v y) cpu.i space) (state, 0)).1, 0)
      (r, c) hmem hpair hbit1 hset

/-- Memory whose byte 0 holds the sprite row 0xC0 (two leading pixels). -/
def memC4 : Memory := { space := updF mem0.space 0 0xC0 }

/-- Result of the first draw of the `x = 0xF` counterexample (the draw
succeeds, so the `getD` default is irrelevant). -/
def drawA : (Nat → Nat) × Screen :=
  (cpu0.draw_sprite 15 1 1 memC4.space screen0).getD (cpu0.v, screen0)

/-- Result of the second, identical draw of the `x = 0xF` counterexample. -/
def drawB : (Nat → Nat) × Screen :=
  (Cpu.draw_sprite { cpu0 with v := drawA.1 } 15 1 1 memC4.space drawA.2).getD
    (cpu0.v, screen0)

set_option maxRecDepth 8000 in
/-- Counterexample to C4 as stated.  With destination selector `x = 0xF`
(`Vx = VF = 0`, `Vy = 0`, `n = 1`, `I = 0`, sprite byte 0xC0) both draws
succeed and the first leaves VF = 0 — so the second draw starts from the
identical `Vx`, `Vy`, `n`, `I` and sprite memory — yet the second draw's
mid-blit collision write into VF shifts its own remaining columns, and the
framebuffer is NOT restored: pixel (1,0) stays set although it was clear
before the first draw.  And with `n = 0` the "full overlap" second draw
reports VF = 0, not 1. -/
theorem c4_counterexample :
    cpu0.draw_sprite 15 1 1 memC4.space screen0 = some drawA ∧
    Cpu.draw_sprite { cpu0 with v := drawA.1 } 15 1 1 memC4.space drawA.2 = some drawB ∧
    drawA.1 15 = cpu0.v 15 ∧
    drawB.2 1 0 = true ∧
    screen0 1 0 = false ∧
    cpu0.draw_sprite 0 1 0 mem0.space screen0 = some (updF cpu0.v 15 0, screen0) ∧
    Cpu.draw_sprite { cpu0 with v := updF cpu0.v 15 0 } 0 1 0 mem0.space screen0
      = some (updF (updF cpu0.v 15 0) 15 0, screen0) ∧
    updF (updF cpu0.v 15 0) 15 0 15 = 0 := by
  exact ⟨rfl, rfl, rfl, rfl, rfl, rfl, rfl, rfl⟩

/-- Result of the first draw of the witness instance. -/
def drawWa : (Nat → Nat) × Screen :=
  (cpu0.draw_sprite 0 1 1 memC4.space screen0).getD (cpu0.v, screen0)

/-- Result of the second draw of the witness instance. -/
def drawWb : (Nat → Nat) × Screen :=
  (Cpu.draw_sprite { cpu0 with v := drawWa.1 } 0 1 1 memC4.space drawWa.2).getD
    (cpu0.v, screen0)

set_option maxRecDepth 8000 in
/-- Witness for `c4_draw_xor` at `x = 0`, `y = 1`, `n = 1`, `I = 0`, sprite
byte 0xC0 over an empty screen: double draw restores the screen, the first
draw reports VF = 0 and the second VF = 1. -/
theorem c4_draw_xor_witness :
    drawWb.2 = screen0 ∧ drawWa.1 15 = 0 ∧ drawWb.1 15 = 1 := by
  obtain ⟨p1, p2, h1, h2, h3, _h4, h5, h6⟩ :=
    c4_draw_xor cpu0 0 1 1 memC4.space screen0 (by decide) (by decide) (by decide) (by decide)
  have e1 : drawWa = p1 := by
    unfold drawWa
    rw [h1]
    rfl
  have e2 : drawWb = p2 := by
    unfold drawWb
    rw [e1, h2]
    rfl
  refine ⟨?_, ?_, ?_⟩
  · rw [e2]
    exact h3
  · rw [e1]
    exact h5 (fun _ _ _ _ => rfl)
  · rw [e2]
    exact h6 (fun _ _ _ _ => rfl) ⟨0, 0, by decide, by decide, by rfl⟩
